import Mathlib

/-!
# gosum: a group-by-sum aggregator over delimited text

A shallow embedding of `gosum.go`.  Go strings are modelled as lists of
Unicode code points (`Str`), i.e. the valid UTF-8 strings.  The globals
`column` and `seperator` are explicit arguments; the global map `summary`
is an association list whose order stands for the order in which a Go
`range` over the map visits its entries (an order the Go runtime leaves
unspecified, so statements about `write` quantify over it).

The functions of the Go standard library that the program calls
(`strings.TrimSpace`, `strings.Split`, `strings.Join`, `strconv.ParseFloat`,
float64 addition, `fmt.Fprint` of a float64, `crypto/md5`, `encoding/hex`,
`sort.Sort`) are modelled in the first part of the file following their
documented behaviour; the program itself follows.
-/

namespace Gosum

/-- A Go string, as its sequence of code points. -/
abbrev Str := List Char

/-! ## package strings -/

/-- Go's `unicode.IsSpace`: the characters `strings.TrimSpace` removes. -/
def isSpace (c : Char) : Bool :=
  let n := c.toNat
  (9 ≤ n && n ≤ 13) || n == 0x20 || n == 0x85 || n == 0xA0 || n == 0x1680 ||
  (0x2000 ≤ n && n ≤ 0x200A) || n == 0x2028 || n == 0x2029 || n == 0x202F ||
  n == 0x205F || n == 0x3000

/-- Remove the leading white space of a string. -/
def trimLeft : Str → Str
  | [] => []
  | c :: s => if isSpace c then trimLeft s else c :: s

/-- Go's `strings.TrimSpace`: remove leading and trailing white space. -/
def TrimSpace (s : Str) : Str :=
  (trimLeft (trimLeft s).reverse).reverse

/-- Whether `p` is a prefix of `s` (Go's `strings.HasPrefix`). -/
def hasPrefix : Str → Str → Bool
  | [], _ => true
  | _ :: _, [] => false
  | a :: p, b :: s => a == b && hasPrefix p s

/-- The scan of `strings.Split` for a non-empty separator: `skip` counts the
characters of an already matched separator still to step over, `cur` holds
the field read so far, reversed.  Occurrences are matched left to right and
do not overlap, as `strings.Index` finds them. -/
def splitLoop (sep : Str) : Str → Nat → Str → List Str
  | [], _, cur => [cur.reverse]
  | _ :: s, k + 1, cur => splitLoop sep s k cur
  | c :: s, 0, cur =>
    if hasPrefix sep (c :: s) then cur.reverse :: splitLoop sep s (sep.length - 1) []
    else splitLoop sep s 0 (c :: cur)

/-- Go's `strings.Split(s, sep)`.  With an empty separator the string is
exploded into its code points (and the empty string gives no field at all);
otherwise the fields between the occurrences of `sep` are returned, so the
result has one more element than there are occurrences. -/
def Split (s sep : Str) : List Str :=
  if sep = [] then s.map (fun c => [c]) else splitLoop sep s 0 []

/-- Go's `strings.Join(a, sep)`. -/
def Join : List Str → Str → Str
  | [], _ => []
  | [a], _ => a
  | a :: b :: r, sep => a ++ sep ++ Join (b :: r) sep

/-! ## float64

IEEE 754 binary64 values.  A finite value is `(-1)^neg * m * 2^e`; every
operation below returns it in canonical form: `m < 2^53`, `-1074 ≤ e ≤ 971`,
and `2^52 ≤ m` unless `e = -1074` (subnormal numbers and zero). -/

/-- A float64 value. -/
inductive F64 where
  | nan
  | inf (neg : Bool)
  | fin (neg : Bool) (m : Nat) (e : Int)
  deriving DecidableEq, Repr, Inhabited

/-- The float64 `0`, the zero value of the type. -/
def F64.zero : F64 := .fin false 0 (-1074)

/-- Number of binary digits of `n`, with fuel. -/
def bitLenAux : Nat → Nat → Nat
  | 0, _ => 0
  | f + 1, n => if n = 0 then 0 else 1 + bitLenAux f (n / 2)

/-- Number of binary digits of `n` (`0` for `0`). -/
def bitLen (n : Nat) : Nat := bitLenAux n n

/-- Round the real number `(-1)^neg * n * 2^e` to the nearest float64, ties to
the even mantissa; values beyond the largest finite float64 become infinite. -/
def roundF64 (neg : Bool) (n : Nat) (e : Int) : F64 :=
  if n = 0 then .fin neg 0 (-1074)
  else
    let e1 : Int := max (e + (bitLen n : Int) - 53) (-1074)
    if e1 ≤ e then
      if e1 > 971 then .inf neg else .fin neg (n * 2 ^ (e - e1).toNat) e1
    else
      let sh := (e1 - e).toNat
      let q := n / 2 ^ sh
      let r := n % 2 ^ sh
      let half := 2 ^ (sh - 1)
      let q1 := if r > half || (r == half && q % 2 == 1) then q + 1 else q
      let (m2, e2) := if q1 = 2 ^ 53 then (2 ^ 52, e1 + 1) else (q1, e1)
      if e2 > 971 then .inf neg else .fin neg m2 e2

/-- Round the rational `(-1)^neg * num / den` (`den > 0`) to the nearest float64:
the quotient is computed to at least 56 bits with a sticky last bit. -/
def roundRatF64 (neg : Bool) (num den : Nat) : F64 :=
  if num = 0 then .fin neg 0 (-1074)
  else
    let s := 56 + bitLen den - bitLen num
    let q := (num * 2 ^ s) / den
    let sticky := if (num * 2 ^ s) % den = 0 then 0 else 1
    roundF64 neg (2 * q + sticky) (-(s : Int) - 1)

/-- Go's `+` on float64: the exact sum, correctly rounded. -/
def F64.add : F64 → F64 → F64
  | .nan, _ => .nan
  | _, .nan => .nan
  | .inf a, .inf b => if a = b then .inf a else .nan
  | .inf a, .fin _ _ _ => .inf a
  | .fin _ _ _, .inf b => .inf b
  | .fin s1 m1 e1, .fin s2 m2 e2 =>
    let e := min e1 e2
    let a : Int := (if s1 then -1 else 1) * ((m1 * 2 ^ (e1 - e).toNat : Nat) : Int)
    let b : Int := (if s2 then -1 else 1) * ((m2 * 2 ^ (e2 - e).toNat : Nat) : Int)
    let t := a + b
    if t = 0 then .fin (s1 && s2) 0 (-1074)
    else roundF64 (decide (t < 0)) t.natAbs e

instance : Add F64 := ⟨F64.add⟩

/-! ## package strconv -/

/-- The two kinds of error `strconv.ParseFloat` returns: `strconv.ErrSyntax`
(the text is not a number) and `strconv.ErrRange` (the number is too large). -/
inductive NumError where
  | invalid
  | outOfRange
  deriving DecidableEq, Repr, Inhabited

/-- Whether `c` is a decimal digit. -/
def isDigit (c : Char) : Bool := 48 ≤ c.toNat && c.toNat ≤ 57

/-- Whether `c` is one of the letters `a`..`f`, `A`..`F`. -/
def isHexLetter (c : Char) : Bool :=
  (97 ≤ c.toNat && c.toNat ≤ 102) || (65 ≤ c.toNat && c.toNat ≤ 70)

/-- The value of a decimal or hexadecimal digit. -/
def digitVal (c : Char) : Nat :=
  if isDigit c then c.toNat - 48
  else if 97 ≤ c.toNat then c.toNat - 87 else c.toNat - 55

/-- ASCII upper-case letters to lower case, as `commonPrefixLenIgnoreCase` does. -/
def toLowerAscii (c : Char) : Char :=
  if 65 ≤ c.toNat && c.toNat ≤ 90 then Char.ofNat (c.toNat + 32) else c

/-- Length of the longest common prefix of `s` and the lower-case word `p`,
ignoring the case of `s`. -/
def commonPrefixLenIgnoreCase : Str → Str → Nat
  | c :: s, d :: p => if toLowerAscii c = d then 1 + commonPrefixLenIgnoreCase s p else 0
  | _, _ => 0

/-- The body of `special` for the infinities: `s` follows the optional sign. -/
def specialInf (neg : Bool) (s : Str) : Option (F64 × Str) :=
  let n := commonPrefixLenIgnoreCase s "infinity".toList
  let n := if 3 < n && n < 8 then 3 else n
  if n = 3 || n = 8 then some (.inf neg, s.drop n) else none

/-- The function `special` of strconv: recognise `inf`, `infinity` (with an
optional sign) and `nan` at the start of `s`; returns the value and the rest. -/
def special : Str → Option (F64 × Str)
  | [] => none
  | c :: s =>
    if c = '+' then specialInf false s
    else if c = '-' then specialInf true s
    else if c = 'i' || c = 'I' then specialInf false (c :: s)
    else if c = 'n' || c = 'N' then
      if commonPrefixLenIgnoreCase (c :: s) "nan".toList = 3 then some (.nan, s.drop 2) else none
    else none

/-- What the digit loop of `readFloat` has seen. -/
structure Mantissa where
  sawdot : Bool
  sawdigits : Bool
  nd : Nat
  dp : Int
  mantissa : Nat
  underscores : Bool

/-- The digit loop of `readFloat`: digits, at most one point, underscores.
Leading zeros are not counted in `nd`; the mantissa is kept exactly. -/
def readDigits (hex : Bool) : Str → Mantissa → Mantissa × Str
  | [], a => (a, [])
  | c :: s, a =>
    if c = '_' then readDigits hex s { a with underscores := true }
    else if c = '.' then
      if a.sawdot then (a, c :: s)
      else readDigits hex s { a with sawdot := true, dp := a.nd }
    else if isDigit c then
      if c = '0' && a.nd == 0 then
        readDigits hex s { a with sawdigits := true, dp := a.dp - 1 }
      else
        readDigits hex s { a with sawdigits := true, nd := a.nd + 1,
                                  mantissa := a.mantissa * (if hex then 16 else 10) + digitVal c }
    else if hex && isHexLetter c then
      readDigits hex s { a with sawdigits := true, nd := a.nd + 1,
                                mantissa := a.mantissa * 16 + digitVal c }
    else (a, c :: s)

/-- The digits of an exponent: the value saturates once it has reached 10000;
underscores are stepped over and reported. -/
def readExpDigits : Str → Nat → Bool → Nat × Bool × Str
  | [], e, u => (e, u, [])
  | c :: s, e, u =>
    if c = '_' then readExpDigits s e true
    else if isDigit c then readExpDigits s (if e < 10000 then e * 10 + digitVal c else e) u
    else (e, u, c :: s)

/-- The function `underscoreOK` of strconv, after the optional sign and base
prefix: `saw` is the class of the last character, `'0'` for a digit, `'_'` for
an underscore, `'!'` for anything else, `'^'` at the start. -/
def underscoreLoop (hex : Bool) : Str → Char → Bool
  | [], saw => saw != '_'
  | c :: s, saw =>
    if isDigit c || (hex && isHexLetter c) then underscoreLoop hex s '0'
    else if c = '_' then (if saw != '0' then false else underscoreLoop hex s '_')
    else if saw = '_' then false
    else underscoreLoop hex s '!'

/-- The function `underscoreOK` of strconv: underscores may only stand between
digits, or between a base prefix and a digit. -/
def underscoreOK (s : Str) : Bool :=
  let s := match s with
    | c :: r => if c = '-' || c = '+' then r else s
    | [] => s
  match s with
  | '0' :: x :: r =>
    if x = 'b' || x = 'B' || x = 'o' || x = 'O' || x = 'x' || x = 'X' then
      underscoreLoop (x = 'x' || x = 'X') r '0'
    else underscoreLoop false s '^'
  | _ => underscoreLoop false s '^'

/-- The result of `readFloat`: sign, base, the exact mantissa, the exponent of
the base (of 10, or of 2 for a hexadecimal number), the position `dp` of the
point after the first significant digit run, and the unread rest. -/
structure ReadFloat where
  neg : Bool
  hex : Bool
  mantissa : Nat
  exp : Int
  dp : Int
  rest : Str

/-- The function `readFloat` of strconv: `none` when the text does not start
with a well-formed number. -/
def readFloat (s : Str) : Option ReadFloat :=
  let (neg, s1) := match s with
    | c :: r => if c = '+' then (false, r) else if c = '-' then (true, r) else (false, s)
    | [] => (false, s)
  if s = [] then none else
  let (hex, s2) := match s1 with
    | '0' :: x :: c :: r => if x = 'x' || x = 'X' then (true, c :: r) else (false, s1)
    | _ => (false, s1)
  let (a, s3) := readDigits hex s2 ⟨false, false, 0, 0, 0, false⟩
  if !a.sawdigits then none else
  let dp : Int := if a.sawdot then a.dp else a.nd
  let dp : Int := if hex then dp * 4 else dp
  let ndMant : Int := if hex then (a.nd : Int) * 4 else a.nd
  let finish (dp : Int) (u : Bool) (rest : Str) : Option ReadFloat :=
    if u && !underscoreOK (s.take (s.length - rest.length)) then none
    else some ⟨neg, hex, a.mantissa, if a.mantissa = 0 then 0 else dp - ndMant, dp, rest⟩
  match s3 with
  | c :: s4 =>
    if (hex && (c = 'p' || c = 'P')) || (!hex && (c = 'e' || c = 'E')) then
      match s4 with
      | [] => none
      | d :: s5 =>
        let (esign, s6) : Int × Str :=
          if d = '+' then (1, s5) else if d = '-' then (-1, s5) else (1, s4)
        match s6 with
        | [] => none
        | g :: _ =>
          if !isDigit g then none else
          let (e, u, rest) := readExpDigits s6 0 a.underscores
          finish (dp + e * esign) u rest
    else if hex then none
    else finish dp a.underscores s3
  | [] => if hex then none else finish dp a.underscores []

/-- Go's `strconv.ParseFloat(s, 64)`: the float64 nearest to the number
written in `s` (ties to even), with the error if any.  On a syntax error the
value is `0`; a number too large gives an infinity and a range error. -/
def ParseFloat (s : Str) : F64 × Option NumError :=
  match special s with
  | some (v, rest) => if rest = [] then (v, none) else (F64.zero, some .invalid)
  | none =>
    match readFloat s with
    | none => (F64.zero, some .invalid)
    | some r =>
      if r.rest ≠ [] then (F64.zero, some .invalid)
      else
        let v :=
          if r.hex then roundF64 r.neg r.mantissa r.exp
          else if r.mantissa = 0 then .fin r.neg 0 (-1074)
          else if r.dp > 310 then .inf r.neg
          else if r.dp < -330 then .fin r.neg 0 (-1074)
          else if 0 ≤ r.exp then roundF64 r.neg (r.mantissa * 10 ^ r.exp.toNat) 0
          else roundRatF64 r.neg r.mantissa (10 ^ (-r.exp).toNat)
        match v with
        | .inf _ => (v, some .outOfRange)
        | _ => (v, none)

/-- The decimal digits of a natural number, most significant first. -/
def natDigits (n : Nat) : Str := Nat.toDigits 10 n

/-- Drop the zeros at the end of a digit string. -/
def stripZeros (ds : Str) : Str :=
  (ds.reverse.dropWhile (fun c => c == '0')).reverse

/-- The search for the shortest decimal `c * 10^(k - n)` with `n` digits that
lies in the rounding interval of a float64.  The value is `x / d`, the interval
is from `lo / d` to `hi / d` (ends included iff `incl`), and `10^(k-1) ≤ x / d < 10^k`.
For each `n` the two candidates are `x / d` cut to `n` digits and the next
`n`-digit number; when both are in the interval the one nearer to the value is
taken.  Returns `c` and `k - n`. -/
def shortestLoop (x lo hi d : Nat) (incl : Bool) (k : Int) : Nat → Nat → Nat × Int
  | 0, n => (x / d, k - n)
  | fuel + 1, n =>
    let p : Int := k - n
    let a := 10 ^ p.toNat
    let b := 10 ^ (-p).toNat
    let t := (x * b) / (d * a)
    let okdown := if incl then lo * b ≤ t * (d * a) else lo * b < t * (d * a)
    let okup := if incl then (t + 1) * (d * a) ≤ hi * b else (t + 1) * (d * a) < hi * b
    let up := 2 * (x * b) > (2 * t + 1) * (d * a) ||
      (2 * (x * b) == (2 * t + 1) * (d * a) && t % 2 == 1)
    if okdown && okup then (if up then t + 1 else t, p)
    else if okdown then (t, p)
    else if okup then (t + 1, p)
    else shortestLoop x lo hi d incl k fuel (n + 1)

/-- The shortest decimal digits that identify the finite non-zero float64
`m * 2^e`, with the position `dp` of the decimal point: the value printed is
`0.d₁d₂… * 10^dp`. -/
def shortestDigits (m : Nat) (e : Int) : Str × Int :=
  let lo4 := if m = 2 ^ 52 ∧ e > -1074 then 4 * m - 1 else 4 * m - 2
  let up : Nat := 2 ^ (e - 2).toNat
  let d : Nat := 2 ^ (2 - e).toNat
  let x := 4 * m * up
  let k0 : Int := ((natDigits x).length : Int) - ((natDigits d).length : Int)
  let k : Int := if x < d * 10 ^ k0.toNat ∨ x * 10 ^ (-k0).toNat < d then k0 else k0 + 1
  let (c, p) := shortestLoop x (lo4 * up) ((4 * m + 2) * up) d (m % 2 == 0) k 17 1
  let ds := natDigits c
  (stripZeros ds, (ds.length : Int) + p)

/-- The exponent part of `%e`: a sign and at least two digits. -/
def fmtExp (exp : Int) : Str :=
  let a := exp.natAbs
  (if exp < 0 then '-' else '+') :: (if a < 10 then '0' :: natDigits a else natDigits a)

/-- The format `%e` of strconv with the shortest digits. -/
def fmtE (ds : Str) (dp : Int) : Str :=
  match ds with
  | [] => '0' :: 'e' :: fmtExp 0
  | [c] => c :: 'e' :: fmtExp (dp - 1)
  | c :: r => c :: '.' :: r ++ 'e' :: fmtExp (dp - 1)

/-- The format `%f` of strconv with the shortest digits, for `-3 ≤ dp`. -/
def fmtF (ds : Str) (dp : Int) : Str :=
  let nd := ds.length
  let int := if dp > 0 then ds.take dp.toNat ++ List.replicate (dp.toNat - nd) '0' else ['0']
  let frac := if dp > 0 then ds.drop dp.toNat else List.replicate (-dp).toNat '0' ++ ds
  if (nd : Int) > dp then int ++ '.' :: frac else int

/-- What `fmt.Fprint` writes for a float64: the verb `%v`, that is `%g` with
the smallest number of digits that identifies the value, in the form `%e` when
the decimal exponent is below `-4` or at least `6`. -/
def FormatFloat : F64 → Str
  | .nan => "NaN".toList
  | .inf false => "+Inf".toList
  | .inf true => "-Inf".toList
  | .fin neg m e =>
    let (ds, dp) := if m = 0 then ([], 0) else shortestDigits m e
    let body := if dp - 1 < -4 ∨ dp - 1 ≥ 6 then fmtE ds dp else fmtF ds dp
    if neg then '-' :: body else body

/-! ## packages crypto/md5 and encoding/hex -/

/-- The UTF-8 encoding of a code point: the bytes a Go string holds for it. -/
def utf8Bytes (c : Char) : List Nat :=
  let n := c.toNat
  if n < 0x80 then [n]
  else if n < 0x800 then [0xC0 + n / 64, 0x80 + n % 64]
  else if n < 0x10000 then [0xE0 + n / 4096, 0x80 + n / 64 % 64, 0x80 + n % 64]
  else [0xF0 + n / 262144, 0x80 + n / 4096 % 64, 0x80 + n / 64 % 64, 0x80 + n % 64]

/-- The bytes of a Go string: the conversion `[]byte(s)`. -/
def toBytes (s : Str) : List Nat := s.flatMap utf8Bytes

/-- The sine table of MD5: `floor(2^32 * |sin (i + 1)|)`. -/
def md5K : List Nat :=
  [0xd76aa478, 0xe8c7b756, 0x242070db, 0xc1bdceee,
   0xf57c0faf, 0x4787c62a, 0xa8304613, 0xfd469501,
   0x698098d8, 0x8b44f7af, 0xffff5bb1, 0x895cd7be,
   0x6b901122, 0xfd987193, 0xa679438e, 0x49b40821,
   0xf61e2562, 0xc040b340, 0x265e5a51, 0xe9b6c7aa,
   0xd62f105d, 0x02441453, 0xd8a1e681, 0xe7d3fbc8,
   0x21e1cde6, 0xc33707d6, 0xf4d50d87, 0x455a14ed,
   0xa9e3e905, 0xfcefa3f8, 0x676f02d9, 0x8d2a4c8a,
   0xfffa3942, 0x8771f681, 0x6d9d6122, 0xfde5380c,
   0xa4beea44, 0x4bdecfa9, 0xf6bb4b60, 0xbebfbc70,
   0x289b7ec6, 0xeaa127fa, 0xd4ef3085, 0x04881d05,
   0xd9d4d039, 0xe6db99e5, 0x1fa27cf8, 0xc4ac5665,
   0xf4292244, 0x432aff97, 0xab9423a7, 0xfc93a039,
   0x655b59c3, 0x8f0ccc92, 0xffeff47d, 0x85845dd1,
   0x6fa87e4f, 0xfe2ce6e0, 0xa3014314, 0x4e0811a1,
   0xf7537e82, 0xbd3af235, 0x2ad7d2bb, 0xeb86d391]

/-- The rotation amounts of the 64 steps of MD5. -/
def md5S : List Nat :=
  [7, 12, 17, 22, 7, 12, 17, 22, 7, 12, 17, 22, 7, 12, 17, 22,
   5, 9, 14, 20, 5, 9, 14, 20, 5, 9, 14, 20, 5, 9, 14, 20,
   4, 11, 16, 23, 4, 11, 16, 23, 4, 11, 16, 23, 4, 11, 16, 23,
   6, 10, 15, 21, 6, 10, 15, 21, 6, 10, 15, 21, 6, 10, 15, 21]

/-- Rotate a 32-bit word to the left. -/
def rotl32 (x s : Nat) : Nat := (x * 2 ^ s + x / 2 ^ (32 - s)) % 2 ^ 32

/-- The complement of a 32-bit word. -/
def not32 (x : Nat) : Nat := 2 ^ 32 - 1 - x

/-- The state of MD5: the four 32-bit words A, B, C, D. -/
structure Md5State where
  a : Nat
  b : Nat
  c : Nat
  d : Nat

/-- One of the 64 steps of MD5 on the sixteen words `w` of a block. -/
def md5Step (w : List Nat) (s : Md5State) (i : Nat) : Md5State :=
  let f :=
    if i < 16 then (s.b &&& s.c) ||| (not32 s.b &&& s.d)
    else if i < 32 then (s.d &&& s.b) ||| (not32 s.d &&& s.c)
    else if i < 48 then s.b ^^^ s.c ^^^ s.d
    else s.c ^^^ (s.b ||| not32 s.d)
  let g :=
    if i < 16 then i
    else if i < 32 then (5 * i + 1) % 16
    else if i < 48 then (3 * i + 5) % 16
    else (7 * i) % 16
  let t := (f + s.a + md5K.getD i 0 + w.getD g 0) % 2 ^ 32
  ⟨s.d, (s.b + rotl32 t (md5S.getD i 0)) % 2 ^ 32, s.b, s.c⟩

/-- The sixteen little-endian 32-bit words of a 64-byte block. -/
def md5Words : List Nat → List Nat
  | b0 :: b1 :: b2 :: b3 :: r => (b0 + 256 * b1 + 65536 * b2 + 16777216 * b3) :: md5Words r
  | _ => []

/-- The 64 steps of one block, added to the incoming state. -/
def md5Block (s : Md5State) (block : List Nat) : Md5State :=
  let w := md5Words block
  let r := (List.range 64).foldl (md5Step w) s
  ⟨(s.a + r.a) % 2 ^ 32, (s.b + r.b) % 2 ^ 32, (s.c + r.c) % 2 ^ 32, (s.d + r.d) % 2 ^ 32⟩

/-- The `k` little-endian bytes of `n`. -/
def leBytes : Nat → Nat → List Nat
  | 0, _ => []
  | k + 1, n => n % 256 :: leBytes k (n / 256)

/-- The padded message of MD5: a byte `0x80`, zeros up to 56 modulo 64, and the
length in bits as 8 little-endian bytes. -/
def md5Pad (msg : List Nat) : List Nat :=
  let n := msg.length
  msg ++ 0x80 :: List.replicate ((119 - n % 64) % 64) 0 ++ leBytes 8 (8 * n % 2 ^ 64)

/-- Run MD5 over the blocks of a padded message; `fuel` bounds their number. -/
def md5Blocks : Nat → Md5State → List Nat → Md5State
  | 0, s, _ => s
  | fuel + 1, s, msg =>
    if msg = [] then s else md5Blocks fuel (md5Block s (msg.take 64)) (msg.drop 64)

/-- The MD5 digest (RFC 1321) of a byte string: 16 bytes. -/
def md5Sum (msg : List Nat) : List Nat :=
  let p := md5Pad msg
  let s := md5Blocks p.length ⟨0x67452301, 0xefcdab89, 0x98badcfe, 0x10325476⟩ p
  leBytes 4 s.a ++ leBytes 4 s.b ++ leBytes 4 s.c ++ leBytes 4 s.d

/-- A hexadecimal digit, lower case. -/
def hexDigit (n : Nat) : Char := "0123456789abcdef".toList.getD n '0'

/-- Go's `hex.EncodeToString`: two lower-case hexadecimal digits per byte. -/
def EncodeToString (b : List Nat) : Str :=
  b.flatMap (fun x => [hexDigit (x / 16), hexDigit (x % 16)])

/-! ## The program -/

/-- Go's `<` on strings: lexicographic order of the bytes, which for UTF-8 is
the lexicographic order of the code points. -/
def strLess : Str → Str → Bool
  | _, [] => false
  | [], _ :: _ => true
  | a :: s, b :: t => decide (a.toNat < b.toNat) || (a.toNat == b.toNat && strLess s t)

/-- The type `File`: one contribution, the source it came from and its value. -/
structure File where
  Filename : Str
  Value : F64
  deriving DecidableEq, Repr, Inhabited

/-- The constructor `NewFile`. -/
def NewFile (f : Str) (v : F64) : File := ⟨f, v⟩

/-- The type `Row`: the record of one group. -/
structure Row where
  Columns : List Str
  Values : List File
  Hash : Str
  Total : F64
  deriving DecidableEq, Repr, Inhabited

/-- The method `Row.Add`: add `n` to the total and append the contribution. -/
def Row.Add (r : Row) (n : F64) (f : Str) : Row :=
  { r with Total := r.Total + n, Values := r.Values ++ [NewFile f n] }

/-- The constructor `NewRow`. -/
def NewRow (c : List Str) (h : Str) : Row :=
  { Columns := c, Hash := h, Total := F64.zero, Values := [] }

/-- The type `Summary`, the slice of records that is sorted. -/
abbrev Summary := List Row

/-- The method `Summary.Len`. -/
def Summary.Len (s : Summary) : Nat := s.length

/-- The method `Summary.Less` on the two records `s[i]` and `s[j]`: it compares
their first columns; `none` is the run-time panic of `Columns[0]` on a record
without columns. -/
def Less (a b : Row) : Option Bool :=
  match a.Columns, b.Columns with
  | x :: _, y :: _ => some (strLess x y)
  | _, _ => none

/-- The inner loop of the insertion sort of package sort: the record `x` enters
the sorted prefix at its right end and moves left while it is `Less` than its
neighbour.  The prefix is held reversed. -/
def insertRev (x : Row) : List Row → Option (List Row)
  | [] => some [x]
  | y :: r =>
    match Less x y with
    | none => none
    | some true => (insertRev x r).map (fun t => y :: t)
    | some false => some (x :: y :: r)

/-- The outer loop of the insertion sort; `acc` is the sorted prefix, reversed. -/
def sortLoop : List Row → List Row → Option (List Row)
  | [], acc => some acc.reverse
  | x :: rest, acc => (insertRev x acc).bind (sortLoop rest)

/-- Go's `sort.Sort` on a `Summary`, by insertion: it calls `Less` only, never
on a slice of fewer than two records, and panics when `Less` does. -/
def sortSummary (s : Summary) : Option Summary := sortLoop s []

/-- The global `summary`, a Go map from hash to record, as the list of its
entries in the order a `range` visits them; keys are unique. -/
abbrev SummaryMap := List (Str × Row)

/-- The lookup `summary[k]`. -/
def mapGet : SummaryMap → Str → Option Row
  | [], _ => none
  | (k1, r) :: m, k => if k1 = k then some r else mapGet m k

/-- The store `summary[k] = r`: replace the entry of `k`, or add one. -/
def mapSet : SummaryMap → Str → Row → SummaryMap
  | [], k, r => [(k, r)]
  | (k1, r1) :: m, k, r => if k1 = k then (k, r) :: m else (k1, r1) :: mapSet m k r

/-- One call of a print function on standard output: either the diagnostic of
`readerr` (message, line number, source label, error of `ParseFloat` if any),
or plain text. -/
inductive Printed where
  | diag (m : Str) (l : Nat) (f : Str) (e : Option NumError)
  | text (s : Str)
  deriving DecidableEq, Repr, Inhabited

/-- The state of a run: the global `summary` and what was printed so far on
standard output. -/
structure State where
  summary : SummaryMap
  stdout : List Printed
  deriving DecidableEq, Repr, Inhabited

/-- The state after `init`. -/
def State.init : State := ⟨[], []⟩

/-- The function `hash`, on a string: the MD5 digest in hexadecimal. -/
def hash (i : Str) : Str := EncodeToString (md5Sum (toBytes i))

/-- The function `readerr`: print the diagnostic on standard output. -/
def readerr (m : Str) (f : Str) (l : Nat) (e : Option NumError) (st : State) : State :=
  { st with stdout := st.stdout ++ [Printed.diag m l f e] }

/-- The loop of `readinput` that builds `columns`: every field of `c` except
the one at index `column - 1`; `k` is the index of the head of the list. -/
def dropColumn (column : Int) : Nat → List Str → List Str
  | _, [] => []
  | k, v :: c =>
    if (k : Int) = column - 1 then dropColumn column (k + 1) c
    else v :: dropColumn column (k + 1) c

/-- The indexing `c[i]` with a Go `int`: `none` is the out-of-range panic. -/
def index (c : List Str) (i : Int) : Option Str :=
  if i < 0 then none else c.get? i.toNat

/-- The body of the loop of `readinput` for the line `l`, numbered `ln`, of the
source `f`; `none` is a run-time panic. -/
def readLine (column : Int) (seperator : Str) (f : Str) (ln : Nat) (st : State) (l : Str) :
    Option State :=
  let c := Split (TrimSpace l) seperator
  if c.length = 0 then
    some (readerr "No columns parsed from line".toList f ln none st)
  else if column > c.length then
    some (readerr "No enough columns to meet requested column number".toList f ln none st)
  else
    match index c (column - 1) with
    | none => none
    | some field =>
      let (v, e) := ParseFloat field
      let st := if e.isSome then readerr "Failed to parse line".toList f ln e st else st
      let columns := dropColumn column 0 c
      let k := hash (Join columns [])
      let summary :=
        if (mapGet st.summary k).isNone then mapSet st.summary k (NewRow columns k)
        else st.summary
      match mapGet summary k with
      | none => none
      | some r => some { st with summary := mapSet summary k (r.Add v f) }

/-- The loop of `readinput` over the lines the scanner yields; `ln` is the
number of the last line read. -/
def readLoop (column : Int) (seperator : Str) (f : Str) : List Str → Nat → State → Option State
  | [], _, st => some st
  | l :: r, ln, st =>
    (readLine column seperator f (ln + 1) st l).bind (readLoop column seperator f r (ln + 1))

/-- The function `readinput` on the lines `r` of the source labelled `f`. -/
def readinput (column : Int) (seperator : Str) (r : List Str) (f : Str) (st : State) :
    Option State :=
  readLoop column seperator f r 0 st

/-- What `write` prints for one record: the total, then, if the record has a
contribution, every column preceded by the separator, then a newline. -/
def writeRow (seperator : Str) (r : Row) : Str :=
  FormatFloat r.Total ++
    (if r.Values.length > 0 then r.Columns.flatMap (fun v => seperator ++ v) else []) ++ ['\n']

/-- The lines `write` prints, one per record, in the order of the sorted
slice; `none` is a panic of `sort.Sort`. -/
def writeLines (seperator : Str) (summary : SummaryMap) : Option (List Str) :=
  (sortSummary (summary.map Prod.snd)).map (fun s => s.map (writeRow seperator))

/-- The function `write` when no output file is configured: the text written
to standard output. -/
def write (seperator : Str) (summary : SummaryMap) : Option Str :=
  (writeLines seperator summary).map List.flatten

/-- What `readfile` finds for a path given on the command line: the file is
missing, or it cannot be opened, or it yields these lines. -/
inductive FileStatus where
  | missing
  | unreadable
  | lines (r : List Str)
  deriving DecidableEq, Repr, Inhabited

/-- The function `readfile`: the files in argument order; a file that is
missing or cannot be opened is reported on standard output and skipped. -/
def readfile (column : Int) (seperator : Str) : List (Str × FileStatus) → State → Option State
  | [], st => some st
  | (f, .missing) :: rest, st =>
    readfile column seperator rest
      { st with stdout := st.stdout ++ [Printed.text (f ++ " Could not be found... skipping\n".toList)] }
  | (f, .unreadable) :: rest, st =>
    readfile column seperator rest
      { st with stdout := st.stdout ++
          [Printed.text ("Could not open file ".toList ++ f ++ " ... skipping\n".toList)] }
  | (f, .lines r) :: rest, st =>
    (readinput column seperator r f st).bind (readfile column seperator rest)

/-- The function `readstdin`. -/
def readstdin (column : Int) (seperator : Str) (stdin : List Str) (st : State) : Option State :=
  readinput column seperator stdin "stdin".toList st

/-- The function `main` when no output file is configured: everything printed
on standard output, or `none` when the run panics. -/
def main (column : Int) (seperator : Str) (args : List (Str × FileStatus)) (stdin : List Str) :
    Option (List Printed) :=
  let st :=
    if args.length > 0 then readfile column seperator args State.init
    else readstdin column seperator stdin State.init
  st.bind (fun st => (write seperator st.summary).map (fun t => st.stdout ++ [Printed.text t]))

/-! ## Definitions used to state the properties -/

/-- What `readLine` takes from a line that passes its two checks: the group
columns and the value `ParseFloat` returns for the target field (whether or
not it reports an error).  `none` for a line that is skipped or panics. -/
def accepted (column : Int) (seperator : Str) (l : Str) : Option (List Str × F64) :=
  let c := Split (TrimSpace l) seperator
  if c.length = 0 then none
  else if column > c.length then none
  else (index c (column - 1)).map (fun field => (dropColumn column 0 c, (ParseFloat field).1))

/-- The last three statements of the loop of `readinput`: the record of the
key of `columns` is created if absent, then `Add` is called on it. -/
def accumulate (m : SummaryMap) (columns : List Str) (v : F64) (f : Str) : SummaryMap :=
  let k := hash (Join columns [])
  match mapGet m k with
  | none => mapSet m k ((NewRow columns k).Add v f)
  | some r => mapSet m k (r.Add v f)

/-- The effect of one labelled line on the map. -/
def step (column : Int) (seperator : Str) (m : SummaryMap) (fl : Str × Str) : SummaryMap :=
  match accepted column seperator fl.2 with
  | none => m
  | some (columns, v) => accumulate m columns v fl.1

/-- The lines `readfile` hands to `readinput`, each with the label of its
file, in the order they are read. -/
def labelledLines : List (Str × FileStatus) → List (Str × Str)
  | [] => []
  | (f, .lines r) :: rest => r.map (fun l => (f, l)) ++ labelledLines rest
  | (_, .missing) :: rest => labelledLines rest
  | (_, .unreadable) :: rest => labelledLines rest

/-- The contribution of a labelled line to the record of key `k`, if any. -/
def contribution (column : Int) (seperator : Str) (k : Str) (fl : Str × Str) : Option File :=
  match accepted column seperator fl.2 with
  | none => none
  | some (columns, v) => if hash (Join columns []) = k then some (NewFile fl.1 v) else none

/-- The contributions of the lines of key `k`, in input order. -/
def contributions (column : Int) (seperator : Str) (k : Str) (ll : List (Str × Str)) : List File :=
  ll.filterMap (contribution column seperator k)

/-- The float64 sum of the values of a list of contributions, added one after
the other to `t`. -/
def sumFrom (t : F64) (vs : List File) : F64 := vs.foldl (fun a c => a + c.Value) t

/-- The effect of a labelled line on the record of key `k`, if it has one. -/
def groupStep (column : Int) (seperator : Str) (k : Str) (o : Option Row) (fl : Str × Str) :
    Option Row :=
  match accepted column seperator fl.2 with
  | none => o
  | some (columns, v) =>
    if hash (Join columns []) = k then some ((o.getD (NewRow columns k)).Add v fl.1) else o

/-- The columns of the first line of key `k`. -/
def firstColumns (column : Int) (seperator : Str) (k : Str) : List (Str × Str) → Option (List Str)
  | [] => none
  | fl :: ll =>
    match accepted column seperator fl.2 with
    | none => firstColumns column seperator k ll
    | some (columns, _) =>
      if hash (Join columns []) = k then some columns else firstColumns column seperator k ll

/-- The first column of `a` is at most the first column of `b` in the order of
Go's string comparison (both records have a first column). -/
def firstLE (a b : Row) : Prop :=
  ∃ x y, a.Columns.head? = some x ∧ b.Columns.head? = some y ∧ strLess y x = false

/-- Replace every character `a` of a string by `b`. -/
def subst (a b : Char) (s : Str) : Str := s.map (fun c => if c = a then b else c)

/-- The values of the lines whose group columns are `columns`, in input order. -/
def groupValues (column : Int) (seperator : Str) (columns : List Str) (lines : List Str) :
    List F64 :=
  lines.filterMap (fun l =>
    match accepted column seperator l with
    | none => none
    | some (c, v) => if c = columns then some v else none)

/-- The float64 of a natural number. -/
def F64.ofNat (n : Nat) : F64 := roundF64 false n 0

/-- The label of standard input. -/
def stdinLabel : Str := "stdin".toList

/-- The three lines of the example of the specification. -/
def exampleLines : List Str := ["a,1,10".toList, "b,1,20".toList, "a,2,10".toList]

/-- The map the program builds from `exampleLines` with column 2. -/
def exampleSummary : SummaryMap :=
  [(hash "a10".toList,
    { Columns := ["a".toList, "10".toList],
      Values := [⟨stdinLabel, F64.ofNat 1⟩, ⟨stdinLabel, F64.ofNat 2⟩],
      Hash := hash "a10".toList, Total := F64.ofNat 3 }),
   (hash "b20".toList,
    { Columns := ["b".toList, "20".toList],
      Values := [⟨stdinLabel, F64.ofNat 1⟩],
      Hash := hash "b20".toList, Total := F64.ofNat 1 })]

/-- The lines of the example in two files, the first line in the first file. -/
def exampleFiles : List (Str × FileStatus) :=
  [("f1".toList, FileStatus.lines ["a,1,10".toList]),
   ("f2".toList, FileStatus.lines ["b,1,20".toList, "a,2,10".toList])]

/-- Two lines whose group columns differ but have the same concatenation. -/
def collidingLines : List Str := ["ab,1,c".toList, "a,2,bc".toList]

/-- Three lines of one group whose float64 sum depends on the order. -/
def roundingLines : List Str := ["k,1e16".toList, "k,1".toList, "k,1".toList]

/-- A line with one field followed by a line with two. -/
def raggedLines : List Str := ["5".toList, "6,a".toList]

/-- The sources a run reads: the files given on the command line, or standard
input under the label `stdin` when none is given. -/
def sources (args : List (Str × FileStatus)) (stdin : List Str) : List (Str × FileStatus) :=
  if args.length > 0 then args else [("stdin".toList, FileStatus.lines stdin)]

/-- A map is reachable when it is the `summary` after reading some sources,
for some column index and separator. -/
def Reachable (m : SummaryMap) : Prop :=
  ∃ (column : Int) (seperator : Str) (files : List (Str × FileStatus)) (st : State),
    readfile column seperator files State.init = some st ∧ st.summary = m

/-- What the loop body of `readinput` prints for the line `l`, numbered `ln`, of
the source `f`: at most one diagnostic. -/
def lineDiag (column : Int) (seperator : Str) (f : Str) (ln : Nat) (l : Str) : List Printed :=
  let c := Split (TrimSpace l) seperator
  if c.length = 0 then [Printed.diag "No columns parsed from line".toList ln f none]
  else if column > c.length then
    [Printed.diag "No enough columns to meet requested column number".toList ln f none]
  else
    match index c (column - 1) with
    | none => []
    | some field =>
      if (ParseFloat field).2.isSome then
        [Printed.diag "Failed to parse line".toList ln f (ParseFloat field).2]
      else []

/-- Two lines of different groups with the same first column. -/
def tieLines : List Str := ["a,1,x".toList, "a,2,y".toList]

/-- The map the program builds from `tieLines` with column 2. -/
def tieSummary : SummaryMap :=
  [(hash "ax".toList,
    { Columns := ["a".toList, "x".toList], Values := [⟨stdinLabel, F64.ofNat 1⟩],
      Hash := hash "ax".toList, Total := F64.ofNat 1 }),
   (hash "ay".toList,
    { Columns := ["a".toList, "y".toList], Values := [⟨stdinLabel, F64.ofNat 2⟩],
      Hash := hash "ay".toList, Total := F64.ofNat 2 })]

/-- The map the program builds from `raggedLines` with column 1. -/
def raggedSummary : SummaryMap :=
  [(hash [],
    { Columns := [], Values := [⟨stdinLabel, F64.ofNat 5⟩],
      Hash := hash [], Total := F64.ofNat 5 }),
   (hash "a".toList,
    { Columns := ["a".toList], Values := [⟨stdinLabel, F64.ofNat 6⟩],
      Hash := hash "a".toList, Total := F64.ofNat 6 })]

/-- A missing file, then a file with a line of one field and a good line. -/
def faultyFiles : List (Str × FileStatus) :=
  [("nofile".toList, FileStatus.missing),
   ("f".toList, FileStatus.lines ["b".toList, "a,1".toList])]

/-- What a run on `faultyFiles` with column 2 prints on standard output. -/
def faultyOutput : List Printed :=
  [Printed.text "nofile Could not be found... skipping\n".toList,
   Printed.diag "No enough columns to meet requested column number".toList 1 "f".toList none,
   Printed.text "1,a\n".toList]

/-- The state in which the map is that of the example. -/
def exampleState : State := { summary := exampleSummary, stdout := [] }

/-! ## The map -/

theorem mapGet_mapSet_same (m : SummaryMap) (k : Str) (r : Row) :
    mapGet (mapSet m k r) k = some r := by
  induction m with
  | nil => simp [mapSet, mapGet]
  | cons p m ih =>
    obtain ⟨k1, r1⟩ := p
    by_cases h : k1 = k
    · simp [mapSet, mapGet, h]
    · simp [mapSet, mapGet, h, ih]

theorem mapGet_mapSet_other (m : SummaryMap) (k k2 : Str) (r : Row) (h : k2 ≠ k) :
    mapGet (mapSet m k r) k2 = mapGet m k2 := by
  induction m with
  | nil => simp [mapSet, mapGet, Ne.symm h]
  | cons p m ih =>
    obtain ⟨k1, r1⟩ := p
    by_cases h1 : k1 = k
    · subst h1
      simp [mapSet, mapGet, Ne.symm h]
    · by_cases h2 : k1 = k2
      · subst h2
        simp [mapSet, mapGet, h1]
      · simp [mapSet, mapGet, h1, h2, ih]

theorem mapSet_mapSet (m : SummaryMap) (k : Str) (a b : Row) :
    mapSet (mapSet m k a) k b = mapSet m k b := by
  induction m with
  | nil => simp [mapSet]
  | cons p m ih =>
    obtain ⟨k1, r1⟩ := p
    by_cases h : k1 = k
    · simp [mapSet, h]
    · simp [mapSet, h, ih]

theorem mapSet_of_none (m : SummaryMap) (k : Str) (r : Row) (h : mapGet m k = none) :
    mapSet m k r = m ++ [(k, r)] := by
  induction m with
  | nil => simp [mapSet]
  | cons p m ih =>
    obtain ⟨k1, r1⟩ := p
    by_cases h1 : k1 = k
    · simp [mapGet, h1] at h
    · simp only [mapGet, h1, if_false] at h
      simp [mapSet, h1, ih h]

theorem keys_mapSet_of_some (m : SummaryMap) (k : Str) (r r0 : Row) (h : mapGet m k = some r0) :
    (mapSet m k r).map Prod.fst = m.map Prod.fst := by
  induction m with
  | nil => simp [mapGet] at h
  | cons p m ih =>
    obtain ⟨k1, r1⟩ := p
    by_cases h1 : k1 = k
    · simp [mapSet, h1]
    · simp only [mapGet, h1, if_false] at h
      simp [mapSet, h1, ih h]

theorem mapGet_none_iff (m : SummaryMap) (k : Str) :
    mapGet m k = none ↔ k ∉ m.map Prod.fst := by
  induction m with
  | nil => simp [mapGet]
  | cons p m ih =>
    obtain ⟨k1, r1⟩ := p
    by_cases h1 : k1 = k
    · subst h1
      simp only [mapGet, if_true, List.map_cons, List.mem_cons, true_or, not_true_eq_false,
        reduceCtorEq]
    · have h2 : ¬ k = k1 := fun e => h1 e.symm
      simp only [mapGet, h1, if_false, ih, List.map_cons, List.mem_cons, h2, false_or]

theorem mapGet_some_mem (m : SummaryMap) (k : Str) (r : Row) (h : mapGet m k = some r) :
    (k, r) ∈ m := by
  induction m with
  | nil => simp [mapGet] at h
  | cons p m ih =>
    obtain ⟨k1, r1⟩ := p
    by_cases h1 : k1 = k
    · simp [mapGet, h1] at h
      simp [h1, h]
    · simp only [mapGet, h1, if_false] at h
      exact List.mem_cons_of_mem _ (ih h)

theorem mapGet_of_mem (m : SummaryMap) (k : Str) (r : Row) (hn : (m.map Prod.fst).Nodup)
    (h : (k, r) ∈ m) : mapGet m k = some r := by
  induction m with
  | nil => simp at h
  | cons p m ih =>
    obtain ⟨k1, r1⟩ := p
    simp only [List.map_cons, List.nodup_cons] at hn
    rcases List.mem_cons.1 h with h1 | h1
    · cases h1
      simp [mapGet]
    · have hk : k1 ≠ k := by
        intro e
        subst e
        exact hn.1 (List.mem_map_of_mem Prod.fst h1)
      simp [mapGet, hk, ih hn.2 h1]

/-! ## One line -/

theorem index_of_range (c : List Str) (column : Int) (h1 : 1 ≤ column)
    (h2 : ¬ column > (c.length : Int)) :
    ∃ field, index c (column - 1) = some field ∧ c.get? (column - 1).toNat = some field := by
  have h3 : ¬ (column - 1 < 0) := by omega
  have h4 : (column - 1).toNat < c.length := by omega
  refine ⟨c.get ⟨_, h4⟩, ?_, ?_⟩
  · simp [index, h3, List.getElem?_eq_getElem h4]
  · simp [List.getElem?_eq_getElem h4]

/-- The map after the tail of the loop body is `accumulate`. -/
theorem commit_eq (m : SummaryMap) (columns : List Str) (v : F64) (f : Str) :
    ∃ r, mapGet (if (mapGet m (hash (Join columns []))).isNone
            then mapSet m (hash (Join columns [])) (NewRow columns (hash (Join columns [])))
            else m) (hash (Join columns [])) = some r ∧
      mapSet (if (mapGet m (hash (Join columns []))).isNone
            then mapSet m (hash (Join columns [])) (NewRow columns (hash (Join columns [])))
            else m) (hash (Join columns [])) (r.Add v f) = accumulate m columns v f := by
  cases h : mapGet m (hash (Join columns [])) with
  | none =>
    refine ⟨NewRow columns (hash (Join columns [])), ?_, ?_⟩
    · simp [mapGet_mapSet_same]
    · simp [accumulate, h, mapSet_mapSet]
  | some r =>
    refine ⟨r, ?_, ?_⟩
    · simp [h]
    · simp [accumulate, h]

/-- With a column index of at least 1 the loop body never panics, and its
effect on the map is `step`. -/
theorem readLine_summary (column : Int) (seperator f : Str) (ln : Nat) (st : State) (l : Str)
    (hc : 1 ≤ column) :
    ∃ st2, readLine column seperator f ln st l = some st2 ∧
      st2.summary = step column seperator st.summary (f, l) := by
  unfold readLine step accepted
  simp only []
  by_cases h0 : (Split (TrimSpace l) seperator).length = 0
  · simp [h0, readerr]
  · by_cases h1 : column > ((Split (TrimSpace l) seperator).length : Int)
    · simp [h0, h1, readerr]
    · obtain ⟨field, hf, -⟩ := index_of_range _ column hc h1
      simp only [h0, h1, if_false, hf, Option.map_some']
      obtain ⟨r, hr1, hr2⟩ := commit_eq st.summary
        (dropColumn column 0 (Split (TrimSpace l) seperator)) (ParseFloat field).1 f
      by_cases he : (ParseFloat field).2.isSome
      · simp only [he, if_true, readerr]
        simp only [hr1]
        exact ⟨_, rfl, hr2⟩
      · simp only [if_neg he]
        simp only [hr1]
        exact ⟨_, rfl, hr2⟩

/-! ## A whole run -/

theorem readLoop_summary (column : Int) (seperator f : Str) (hc : 1 ≤ column) :
    ∀ (r : List Str) (ln : Nat) (st : State),
      ∃ st2, readLoop column seperator f r ln st = some st2 ∧
        st2.summary = (r.map (fun l => (f, l))).foldl (step column seperator) st.summary := by
  intro r
  induction r with
  | nil => intro ln st; exact ⟨st, rfl, rfl⟩
  | cons l r ih =>
    intro ln st
    obtain ⟨st1, h1, h2⟩ := readLine_summary column seperator f (ln + 1) st l hc
    obtain ⟨st2, h3, h4⟩ := ih (ln + 1) st1
    refine ⟨st2, ?_, ?_⟩
    · simp [readLoop, h1, h3]
    · simp [h4, h2]

theorem readinput_summary (column : Int) (seperator f : Str) (hc : 1 ≤ column)
    (r : List Str) (st : State) :
    ∃ st2, readinput column seperator r f st = some st2 ∧
      st2.summary = (r.map (fun l => (f, l))).foldl (step column seperator) st.summary :=
  readLoop_summary column seperator f hc r 0 st

theorem readfile_summary (column : Int) (seperator : Str) (hc : 1 ≤ column) :
    ∀ (files : List (Str × FileStatus)) (st : State),
      ∃ st2, readfile column seperator files st = some st2 ∧
        st2.summary = (labelledLines files).foldl (step column seperator) st.summary := by
  intro files
  induction files with
  | nil => intro st; exact ⟨st, rfl, rfl⟩
  | cons a files ih =>
    intro st
    obtain ⟨f, s⟩ := a
    cases s with
    | missing =>
      obtain ⟨st2, h1, h2⟩ := ih
        { st with stdout := st.stdout ++ [Printed.text (f ++ " Could not be found... skipping\n".toList)] }
      exact ⟨st2, by simpa [readfile] using h1, by simpa [labelledLines] using h2⟩
    | unreadable =>
      obtain ⟨st2, h1, h2⟩ := ih
        { st with stdout := st.stdout ++
          [Printed.text ("Could not open file ".toList ++ f ++ " ... skipping\n".toList)] }
      exact ⟨st2, by simpa [readfile] using h1, by simpa [labelledLines] using h2⟩
    | lines r =>
      obtain ⟨st1, h1, h2⟩ := readinput_summary column seperator f hc r st
      obtain ⟨st2, h3, h4⟩ := ih st1
      refine ⟨st2, ?_, ?_⟩
      · simp [readfile, h1, h3]
      · simp [labelledLines, List.foldl_append, h4, h2]

/-! ## The record of one key -/

theorem mapGet_accumulate (m : SummaryMap) (columns : List Str) (v : F64) (f k : Str) :
    mapGet (accumulate m columns v f) k =
      if hash (Join columns []) = k
      then some (((mapGet m k).getD (NewRow columns k)).Add v f) else mapGet m k := by
  by_cases hk : hash (Join columns []) = k
  · subst hk
    cases h : mapGet m (hash (Join columns [])) with
    | none => simp [accumulate, h, mapGet_mapSet_same]
    | some r => simp [accumulate, h, mapGet_mapSet_same]
  · have hk2 : k ≠ hash (Join columns []) := fun e => hk e.symm
    cases h : mapGet m (hash (Join columns [])) with
    | none => simp [accumulate, h, hk, mapGet_mapSet_other _ _ _ _ hk2]
    | some r => simp [accumulate, h, hk, mapGet_mapSet_other _ _ _ _ hk2]

theorem mapGet_step (column : Int) (seperator : Str) (m : SummaryMap) (fl : Str × Str) (k : Str) :
    mapGet (step column seperator m fl) k = groupStep column seperator k (mapGet m k) fl := by
  unfold step groupStep
  cases h : accepted column seperator fl.2 with
  | none => rfl
  | some cv =>
    obtain ⟨columns, v⟩ := cv
    simp only [mapGet_accumulate]

theorem mapGet_foldl_step (column : Int) (seperator : Str) (k : Str) :
    ∀ (ll : List (Str × Str)) (m : SummaryMap),
      mapGet (ll.foldl (step column seperator) m) k =
        ll.foldl (groupStep column seperator k) (mapGet m k) := by
  intro ll
  induction ll with
  | nil => intro m; rfl
  | cons fl ll ih =>
    intro m
    simp only [List.foldl_cons, ih, mapGet_step]

theorem sumFrom_cons (t : F64) (c : File) (vs : List File) :
    sumFrom t (c :: vs) = sumFrom (t + c.Value) vs := rfl

theorem sumFrom_append (t : F64) (a b : List File) :
    sumFrom t (a ++ b) = sumFrom (sumFrom t a) b := by
  simp [sumFrom, List.foldl_append]

theorem groupStep_skip (column : Int) (seperator : Str) (k : Str) (o : Option Row)
    (fl : Str × Str) (h : contribution column seperator k fl = none) :
    groupStep column seperator k o fl = o := by
  unfold groupStep
  unfold contribution at h
  cases ha : accepted column seperator fl.2 with
  | none => rfl
  | some cv =>
    obtain ⟨columns, v⟩ := cv
    rw [ha] at h
    by_cases hk : hash (Join columns []) = k
    · simp [hk] at h
    · simp [hk]

theorem groupStep_hit (column : Int) (seperator : Str) (k : Str) (o : Option Row)
    (fl : Str × Str) (c : File) (h : contribution column seperator k fl = some c) :
    ∃ columns, accepted column seperator fl.2 = some (columns, c.Value) ∧
      hash (Join columns []) = k ∧ c.Filename = fl.1 ∧
      groupStep column seperator k o fl = some ((o.getD (NewRow columns k)).Add c.Value fl.1) := by
  unfold groupStep
  unfold contribution at h
  cases ha : accepted column seperator fl.2 with
  | none => rw [ha] at h; simp at h
  | some cv =>
    obtain ⟨columns, v⟩ := cv
    rw [ha] at h
    by_cases hk : hash (Join columns []) = k
    · simp only [hk, if_true, Option.some.injEq] at h
      subst h
      exact ⟨columns, rfl, hk, rfl, by simp [hk, NewFile]⟩
    · simp [hk] at h

theorem firstColumns_skip (column : Int) (seperator : Str) (k : Str) (fl : Str × Str)
    (ll : List (Str × Str)) (h : contribution column seperator k fl = none) :
    firstColumns column seperator k (fl :: ll) = firstColumns column seperator k ll := by
  unfold contribution at h
  cases ha : accepted column seperator fl.2 with
  | none => simp [firstColumns, ha]
  | some cv =>
    obtain ⟨columns, v⟩ := cv
    rw [ha] at h
    by_cases hk : hash (Join columns []) = k
    · simp [hk] at h
    · simp [firstColumns, ha, hk]

theorem foldl_groupStep_some (column : Int) (seperator : Str) (k : Str) :
    ∀ (ll : List (Str × Str)) (r : Row),
      ll.foldl (groupStep column seperator k) (some r) =
        some { r with Values := r.Values ++ contributions column seperator k ll,
                      Total := sumFrom r.Total (contributions column seperator k ll) } := by
  intro ll
  induction ll with
  | nil => intro r; simp [contributions, sumFrom]
  | cons fl ll ih =>
    intro r
    simp only [List.foldl_cons]
    cases h : contribution column seperator k fl with
    | none =>
      rw [groupStep_skip _ _ _ _ _ h, ih]
      simp [contributions, h]
    | some c =>
      obtain ⟨columns, -, -, hf, hg⟩ := groupStep_hit column seperator k (some r) fl c h
      rw [hg, ih]
      obtain ⟨fn, v⟩ := c
      simp only at hf
      subst hf
      simp [contributions, h, Row.Add, sumFrom, NewFile]

theorem foldl_groupStep_none (column : Int) (seperator : Str) (k : Str) :
    ∀ (ll : List (Str × Str)),
      ll.foldl (groupStep column seperator k) none =
        (firstColumns column seperator k ll).map (fun columns =>
          { Columns := columns, Values := contributions column seperator k ll, Hash := k,
            Total := sumFrom F64.zero (contributions column seperator k ll) }) := by
  intro ll
  induction ll with
  | nil => rfl
  | cons fl ll ih =>
    simp only [List.foldl_cons]
    cases h : contribution column seperator k fl with
    | none =>
      rw [groupStep_skip _ _ _ _ _ h, ih, firstColumns_skip _ _ _ _ _ h]
      simp [contributions, h]
    | some c =>
      obtain ⟨columns, ha, hk, hf, hg⟩ := groupStep_hit column seperator k none fl c h
      rw [hg, foldl_groupStep_some]
      obtain ⟨fn, v⟩ := c
      simp only at hf
      subst hf
      simp [contributions, h, Row.Add, NewRow, sumFrom, NewFile, firstColumns, ha, hk]

/-! ## The order of strings -/

theorem strLess_nil_right (a : Str) : strLess a [] = false := by
  cases a <;> rfl

theorem strLess_asymm : ∀ (a b : Str), strLess a b = true → strLess b a = false := by
  intro a
  induction a with
  | nil => intro b _; exact strLess_nil_right b
  | cons x s ih =>
    intro b h
    cases b with
    | nil => simp [strLess] at h
    | cons y t =>
      simp only [strLess, Bool.or_eq_true, decide_eq_true_eq, Bool.and_eq_true, beq_iff_eq] at h
      simp only [strLess, Bool.or_eq_false_iff, decide_eq_false_iff_not, Bool.and_eq_false_iff,
        beq_eq_false_iff_ne]
      rcases h with h | ⟨h1, h2⟩
      · exact ⟨by omega, Or.inl (by omega)⟩
      · exact ⟨by omega, Or.inr (ih t h2)⟩

/-- The order `≤` of strings is transitive. -/
theorem strLess_le_trans : ∀ (a b c : Str),
    strLess b a = false → strLess c b = false → strLess c a = false := by
  intro a
  induction a with
  | nil => intro b c _ _; exact strLess_nil_right c
  | cons x s ih =>
    intro b c h1 h2
    cases b with
    | nil => simp [strLess] at h1
    | cons y t =>
      cases c with
      | nil => simp [strLess] at h2
      | cons z u =>
        simp only [strLess, Bool.or_eq_false_iff, decide_eq_false_iff_not, Bool.and_eq_false_iff,
          beq_eq_false_iff_ne] at h1 h2 ⊢
        obtain ⟨h1a, h1b⟩ := h1
        obtain ⟨h2a, h2b⟩ := h2
        refine ⟨by omega, ?_⟩
        by_cases hxz : z.toNat = x.toNat
        · right
          have hxy : y.toNat = x.toNat := by omega
          have hyz : z.toNat = y.toNat := by omega
          rcases h1b with h | h
          · exact absurd hxy h
          · rcases h2b with h3 | h3
            · exact absurd hyz h3
            · exact ih t u h h3
        · left; exact hxz

/-! ## The sort -/

theorem Less_some (a b : Row) (v : Bool) (h : Less a b = some v) :
    ∃ x y, a.Columns.head? = some x ∧ b.Columns.head? = some y ∧ strLess x y = v := by
  unfold Less at h
  cases ha : a.Columns with
  | nil => simp [ha] at h
  | cons x s =>
    cases hb : b.Columns with
    | nil => simp [ha, hb] at h
    | cons y t =>
      simp only [ha, hb, Option.some.injEq] at h
      exact ⟨x, y, rfl, rfl, h⟩

theorem Less_isSome (a b : Row) (ha : a.Columns ≠ []) (hb : b.Columns ≠ []) :
    ∃ v, Less a b = some v := by
  unfold Less
  cases h1 : a.Columns with
  | nil => exact absurd h1 ha
  | cons x s =>
    cases h2 : b.Columns with
    | nil => exact absurd h2 hb
    | cons y t => exact ⟨_, rfl⟩

theorem firstLE_trans (a b c : Row) (h1 : firstLE a b) (h2 : firstLE b c) : firstLE a c := by
  obtain ⟨x, y, hx, hy, hxy⟩ := h1
  obtain ⟨y2, z, hy2, hz, hyz⟩ := h2
  rw [hy] at hy2
  cases hy2
  exact ⟨x, z, hx, hz, strLess_le_trans x y z hxy hyz⟩

theorem insertRev_perm (x : Row) : ∀ (acc t : List Row),
    insertRev x acc = some t → t.Perm (x :: acc) := by
  intro acc
  induction acc with
  | nil =>
    intro t h
    simp only [insertRev, Option.some.injEq] at h
    subst h
    exact List.Perm.refl _
  | cons y r ih =>
    intro t h
    unfold insertRev at h
    cases hl : Less x y with
    | none => simp [hl] at h
    | some v =>
      cases v with
      | true =>
        simp only [hl] at h
        cases hr : insertRev x r with
        | none => simp [hr] at h
        | some t2 =>
          simp only [hr, Option.map_some', Option.some.injEq] at h
          subst h
          exact ((ih t2 hr).cons y).trans (List.Perm.swap x y r)
      | false =>
        simp only [hl, Option.some.injEq] at h
        subst h
        exact List.Perm.refl _

theorem insertRev_sorted (x : Row) : ∀ (acc t : List Row),
    acc.Pairwise (fun a b => firstLE b a) → insertRev x acc = some t →
      t.Pairwise (fun a b => firstLE b a) := by
  intro acc
  induction acc with
  | nil =>
    intro t _ h
    simp only [insertRev, Option.some.injEq] at h
    subst h
    simp
  | cons y r ih =>
    intro t hp h
    unfold insertRev at h
    rw [List.pairwise_cons] at hp
    cases hl : Less x y with
    | none => simp [hl] at h
    | some v =>
      obtain ⟨a, b, ha, hb, hab⟩ := Less_some x y v hl
      cases v with
      | true =>
        simp only [hl] at h
        cases hr : insertRev x r with
        | none => simp [hr] at h
        | some t2 =>
          simp only [hr, Option.map_some', Option.some.injEq] at h
          subst h
          rw [List.pairwise_cons]
          refine ⟨?_, ih t2 hp.2 hr⟩
          intro z hz
          rcases List.mem_cons.1 ((insertRev_perm x r t2 hr).mem_iff.1 hz) with e | e
          · subst e
            exact ⟨a, b, ha, hb, strLess_asymm a b hab⟩
          · exact hp.1 z e
      | false =>
        simp only [hl, Option.some.injEq] at h
        subst h
        have hyx : firstLE y x := ⟨b, a, hb, ha, hab⟩
        rw [List.pairwise_cons]
        refine ⟨?_, List.pairwise_cons.2 hp⟩
        intro z hz
        rcases List.mem_cons.1 hz with e | e
        · subst e; exact hyx
        · exact firstLE_trans z y x (hp.1 z e) hyx

theorem insertRev_isSome (x : Row) (hx : x.Columns ≠ []) : ∀ (acc : List Row),
    (∀ r ∈ acc, r.Columns ≠ []) → ∃ t, insertRev x acc = some t := by
  intro acc
  induction acc with
  | nil => intro _; exact ⟨_, rfl⟩
  | cons y r ih =>
    intro h
    obtain ⟨v, hv⟩ := Less_isSome x y hx (h y (List.mem_cons_self _ _))
    obtain ⟨t, ht⟩ := ih (fun z hz => h z (List.mem_cons_of_mem _ hz))
    unfold insertRev
    cases v with
    | true => exact ⟨y :: t, by simp [hv, ht]⟩
    | false => exact ⟨x :: y :: r, by simp [hv]⟩

theorem sortLoop_spec : ∀ (rest acc t : List Row),
    acc.Pairwise (fun a b => firstLE b a) → sortLoop rest acc = some t →
      t.Pairwise firstLE ∧ t.Perm (acc.reverse ++ rest) := by
  intro rest
  induction rest with
  | nil =>
    intro acc t hp h
    simp only [sortLoop, Option.some.injEq] at h
    subst h
    exact ⟨List.pairwise_reverse.2 hp, by simp⟩
  | cons x rest ih =>
    intro acc t hp h
    unfold sortLoop at h
    cases hi : insertRev x acc with
    | none => simp [hi] at h
    | some acc2 =>
      simp only [hi, Option.some_bind] at h
      obtain ⟨h1, h2⟩ := ih acc2 t (insertRev_sorted x acc acc2 hp hi) h
      refine ⟨h1, h2.trans ?_⟩
      have h3 : acc2.reverse.Perm (acc.reverse ++ [x]) :=
        (List.reverse_perm acc2).trans (((insertRev_perm x acc acc2 hi).trans
          (List.perm_append_singleton x acc).symm).trans
          ((List.reverse_perm acc).symm.append_right [x]))
      simpa using h3.append_right rest

theorem sortLoop_isSome : ∀ (rest acc : List Row),
    (∀ r ∈ rest, r.Columns ≠ []) → (∀ r ∈ acc, r.Columns ≠ []) →
      ∃ t, sortLoop rest acc = some t := by
  intro rest
  induction rest with
  | nil => intro acc _ _; exact ⟨_, rfl⟩
  | cons x rest ih =>
    intro acc h1 h2
    obtain ⟨acc2, ha⟩ := insertRev_isSome x (h1 x (List.mem_cons_self _ _)) acc h2
    have h3 : ∀ r ∈ acc2, r.Columns ≠ [] := by
      intro r hr
      rcases List.mem_cons.1 ((insertRev_perm x acc acc2 ha).mem_iff.1 hr) with e | e
      · subst e; exact h1 r (List.mem_cons_self _ _)
      · exact h2 r e
    obtain ⟨t, ht⟩ := ih acc2 (fun r hr => h1 r (List.mem_cons_of_mem _ hr)) h3
    exact ⟨t, by simp [sortLoop, ha, ht]⟩

/-- The result of the sort is a permutation of its input in ascending order
of the first column. -/
theorem sortSummary_spec (s t : Summary) (h : sortSummary s = some t) :
    t.Pairwise firstLE ∧ t.Perm s := by
  have := sortLoop_spec s [] t List.Pairwise.nil h
  simpa using this

/-- The sort does not panic when every record has a column. -/
theorem sortSummary_isSome (s : Summary) (h : ∀ r ∈ s, r.Columns ≠ []) :
    ∃ t, sortSummary s = some t :=
  sortLoop_isSome s [] h (by simp)

/-! ## The columns of a line -/

theorem dropColumn_past (column : Int) : ∀ (c : List Str) (k : Nat),
    column - 1 < (k : Int) → dropColumn column k c = c := by
  intro c
  induction c with
  | nil => intro k _; rfl
  | cons v c ih =>
    intro k h
    have h1 : ¬ ((k : Int) = column - 1) := by omega
    simp only [dropColumn, h1, if_false]
    rw [ih (k + 1) (by push_cast; omega)]

theorem dropColumn_eq_eraseIdx (column : Int) : ∀ (c : List Str) (k : Nat),
    (k : Int) ≤ column - 1 → dropColumn column k c = c.eraseIdx (column - 1 - k).toNat := by
  intro c
  induction c with
  | nil => intro k _; rfl
  | cons v c ih =>
    intro k h
    by_cases h1 : (k : Int) = column - 1
    · have h2 : (column - 1 - (k : Int)).toNat = 0 := by omega
      rw [dropColumn, if_pos h1, h2, List.eraseIdx_cons_zero]
      exact dropColumn_past column c (k + 1) (by push_cast; omega)
    · have h2 : (column - 1 - (k : Int)).toNat = (column - 1 - ((k + 1 : Nat) : Int)).toNat + 1 := by
        push_cast; omega
      rw [dropColumn, if_neg h1, h2, List.eraseIdx_cons_succ, ih (k + 1) (by push_cast; omega)]

/-! ## Changing the separator -/

theorem subst_of_not_mem (a b : Char) (s : Str) (h : a ∉ s) : subst a b s = s := by
  induction s with
  | nil => rfl
  | cons c s ih =>
    have h1 : c ≠ a := fun e => h (by simp [e])
    have h2 : a ∉ s := fun e => h (List.mem_cons_of_mem _ e)
    have h3 := ih h2
    unfold subst at h3 ⊢
    simp [h1, h3]

theorem subst_append (a b : Char) (s t : Str) :
    subst a b (s ++ t) = subst a b s ++ subst a b t := by
  simp [subst]

theorem Join_subst (a b : Char) : ∀ (fields : List Str), (∀ x ∈ fields, a ∉ x) →
    Join fields [b] = subst a b (Join fields [a]) := by
  intro fields
  induction fields with
  | nil => intro _; rfl
  | cons x r ih =>
    intro h
    cases r with
    | nil => simp [Join, subst_of_not_mem a b x (h x (by simp))]
    | cons y r =>
      have h1 := ih (fun z hz => h z (List.mem_cons_of_mem _ hz))
      simp only [Join, subst_append, ← h1, subst_of_not_mem a b x (h x (by simp))]
      simp [subst]

theorem mem_Join (c : Char) (sep : Str) : ∀ (fields : List Str),
    c ∈ Join fields sep → c ∈ sep ∨ ∃ x ∈ fields, c ∈ x := by
  intro fields
  induction fields with
  | nil => intro h; simp [Join] at h
  | cons x r ih =>
    intro h
    cases r with
    | nil => exact Or.inr ⟨x, by simp, by simpa [Join] using h⟩
    | cons y r =>
      simp only [Join, List.mem_append] at h
      rcases h with (h | h) | h
      · exact Or.inr ⟨x, by simp, h⟩
      · exact Or.inl h
      · rcases ih h with h2 | ⟨z, hz, hc⟩
        · exact Or.inl h2
        · exact Or.inr ⟨z, List.mem_cons_of_mem _ hz, hc⟩

theorem trimLeft_subst (a b : Char) (ha : isSpace a = false) (hb : isSpace b = false) :
    ∀ (s : Str), trimLeft (subst a b s) = subst a b (trimLeft s) := by
  intro s
  induction s with
  | nil => rfl
  | cons c s ih =>
    unfold subst at ih ⊢
    by_cases hc : c = a
    · subst hc
      simp [trimLeft, ha, hb]
    · by_cases hs : isSpace c = true
      · simp [trimLeft, hc, hs, ih]
      · simp [trimLeft, hc, hs]

theorem TrimSpace_subst (a b : Char) (ha : isSpace a = false) (hb : isSpace b = false)
    (s : Str) : TrimSpace (subst a b s) = subst a b (TrimSpace s) := by
  have hrev : ∀ t : Str, (subst a b t).reverse = subst a b t.reverse := by
    intro t; simp [subst]
  unfold TrimSpace
  rw [trimLeft_subst a b ha hb, hrev, trimLeft_subst a b ha hb, hrev]

theorem mem_trimLeft (c : Char) : ∀ (s : Str), c ∈ trimLeft s → c ∈ s := by
  intro s
  induction s with
  | nil => intro h; exact h
  | cons d s ih =>
    intro h
    by_cases hs : isSpace d = true
    · simp only [trimLeft, hs, if_true] at h
      exact List.mem_cons_of_mem _ (ih h)
    · simpa [trimLeft, hs] using h

theorem mem_TrimSpace (c : Char) (s : Str) (h : c ∈ TrimSpace s) : c ∈ s := by
  unfold TrimSpace at h
  have h1 := mem_trimLeft c _ (List.mem_reverse.1 h)
  exact mem_trimLeft c _ (List.mem_reverse.1 h1)

theorem splitLoop_subst (a b : Char) (hab : a ≠ b) : ∀ (s cur : Str), b ∉ s →
    splitLoop [b] (subst a b s) 0 (subst a b cur) =
      (splitLoop [a] s 0 cur).map (subst a b) := by
  intro s
  induction s with
  | nil =>
    intro cur _
    simp [splitLoop, subst]
  | cons c s ih =>
    intro cur h
    have hcb : c ≠ b := fun e => h (by simp [e])
    have hs : b ∉ s := fun e => h (List.mem_cons_of_mem _ e)
    by_cases hc : c = a
    · subst hc
      have h1 := ih [] hs
      have e1 : subst c b (c :: s) = b :: subst c b s := by simp [subst]
      have e2 : (subst c b cur).reverse = subst c b cur.reverse := by simp [subst]
      rw [e1]
      simp only [splitLoop, hasPrefix, beq_self_eq_true, Bool.and_true, if_true,
        List.length_singleton, Nat.sub_self, List.map_cons, e2]
      exact congrArg _ h1
    · have h1 := ih (c :: cur) hs
      have e1 : subst a b (c :: s) = c :: subst a b s := by simp [subst, hc]
      have e2 : subst a b (c :: cur) = c :: subst a b cur := by simp [subst, hc]
      have e3 : (c == b) = false := by simp [hcb]
      have e4 : (a == c) = false := by simp [Ne.symm hc]
      have e5 : (b == c) = false := by simp [Ne.symm hcb]
      rw [e1]
      rw [e2] at h1
      simp only [splitLoop, hasPrefix, e4, e5, Bool.false_and, Bool.false_eq_true, if_false]
      exact h1

theorem splitLoop_free (a : Char) : ∀ (s cur : Str), a ∉ cur →
    ∀ x ∈ splitLoop [a] s 0 cur, a ∉ x := by
  intro s
  induction s with
  | nil =>
    intro cur h x hx
    simp only [splitLoop, List.mem_singleton] at hx
    subst hx
    simpa using h
  | cons c s ih =>
    intro cur h x hx
    by_cases hc : c = a
    · subst hc
      simp only [splitLoop, hasPrefix, beq_self_eq_true, Bool.and_true, if_true,
        List.length_singleton, Nat.sub_self, List.mem_cons] at hx
      rcases hx with hx | hx
      · subst hx; simpa using h
      · exact ih [] (by simp) x hx
    · have e4 : (a == c) = false := by simp [Ne.symm hc]
      simp only [splitLoop, hasPrefix, e4, Bool.false_and, Bool.false_eq_true, if_false] at hx
      refine ih (c :: cur) ?_ x hx
      intro hm
      rcases List.mem_cons.1 hm with e | e
      · exact hc e.symm
      · exact h e

/-- The fields of a line do not depend on which of two characters, neither of
them white space nor present in the fields, is used as separator. -/
theorem Split_Join_subst (a b : Char) (hab : a ≠ b) (ha : isSpace a = false)
    (hb : isSpace b = false) (fields : List Str) (hf : ∀ x ∈ fields, a ∉ x ∧ b ∉ x) :
    Split (TrimSpace (Join fields [b])) [b] = Split (TrimSpace (Join fields [a])) [a] := by
  have hbJ : b ∉ Join fields [a] := by
    intro h
    rcases mem_Join b [a] fields h with h1 | ⟨x, hx, hbx⟩
    · simp at h1; exact hab h1.symm
    · exact (hf x hx).2 hbx
  have hbT : b ∉ TrimSpace (Join fields [a]) := fun h => hbJ (mem_TrimSpace b _ h)
  rw [Join_subst a b fields (fun x hx => (hf x hx).1), TrimSpace_subst a b ha hb]
  have h1 := splitLoop_subst a b hab (TrimSpace (Join fields [a])) [] hbT
  have h2 : subst a b [] = [] := rfl
  rw [h2] at h1
  simp only [Split, List.cons_ne_nil, if_false, h1]
  have h3 := splitLoop_free a (TrimSpace (Join fields [a])) [] (by simp)
  calc (splitLoop [a] (TrimSpace (Join fields [a])) 0 []).map (subst a b)
      = (splitLoop [a] (TrimSpace (Join fields [a])) 0 []).map id :=
        List.map_congr_left (fun x hx => subst_of_not_mem a b x (h3 x hx))
    _ = _ := by simp

/-! ## The records of a run -/

theorem keys_accumulate_nodup (m : SummaryMap) (columns : List Str) (v : F64) (f : Str)
    (h : (m.map Prod.fst).Nodup) : ((accumulate m columns v f).map Prod.fst).Nodup := by
  unfold accumulate
  cases hg : mapGet m (hash (Join columns [])) with
  | none =>
    simp only [hg]
    rw [mapSet_of_none m _ _ hg, List.map_append]
    refine List.Nodup.append h (by simp) ?_
    intro k hk1 hk2
    simp only [List.map_cons, List.map_nil, List.mem_singleton] at hk2
    subst hk2
    exact (mapGet_none_iff m _).1 hg hk1
  | some r =>
    simp only [hg]
    rw [keys_mapSet_of_some m _ _ r hg]
    exact h

theorem keys_step_nodup (column : Int) (seperator : Str) (m : SummaryMap) (fl : Str × Str)
    (h : (m.map Prod.fst).Nodup) : ((step column seperator m fl).map Prod.fst).Nodup := by
  unfold step
  cases ha : accepted column seperator fl.2 with
  | none => exact h
  | some cv =>
    obtain ⟨columns, v⟩ := cv
    exact keys_accumulate_nodup m columns v fl.1 h

theorem keys_foldl_step_nodup (column : Int) (seperator : Str) :
    ∀ (ll : List (Str × Str)) (m : SummaryMap), (m.map Prod.fst).Nodup →
      ((ll.foldl (step column seperator) m).map Prod.fst).Nodup := by
  intro ll
  induction ll with
  | nil => intro m h; exact h
  | cons fl ll ih =>
    intro m h
    exact ih _ (keys_step_nodup column seperator m fl h)

theorem contribution_of_accepted (column : Int) (seperator : Str) (f l : Str)
    (columns : List Str) (v : F64) (h : accepted column seperator l = some (columns, v)) :
    contribution column seperator (hash (Join columns [])) (f, l) = some (NewFile f v) := by
  simp [contribution, h]

theorem firstColumns_isSome (column : Int) (seperator : Str) (k : Str) :
    ∀ (ll : List (Str × Str)), contributions column seperator k ll ≠ [] →
      ∃ columns, firstColumns column seperator k ll = some columns := by
  intro ll
  induction ll with
  | nil => intro h; exact absurd rfl h
  | cons fl ll ih =>
    intro h
    cases hc : contribution column seperator k fl with
    | none =>
      rw [firstColumns_skip _ _ _ _ _ hc]
      apply ih
      simpa [contributions, hc] using h
    | some c =>
      obtain ⟨columns, ha, hk, -, -⟩ := groupStep_hit column seperator k none fl c hc
      exact ⟨columns, by simp [firstColumns, ha, hk]⟩

/-- The record of a key after a run from the empty map. -/
theorem mapGet_run (column : Int) (seperator : Str) (k : Str) (ll : List (Str × Str)) :
    mapGet (ll.foldl (step column seperator) []) k =
      (firstColumns column seperator k ll).map (fun columns =>
        { Columns := columns, Values := contributions column seperator k ll, Hash := k,
          Total := sumFrom F64.zero (contributions column seperator k ll) }) := by
  rw [mapGet_foldl_step]
  exact foldl_groupStep_none column seperator k ll

theorem firstColumns_of_group (column : Int) (seperator : Str) (columns : List Str) :
    ∀ (ll : List (Str × Str)),
      (∀ l ∈ ll.map Prod.snd, ∀ c v, accepted column seperator l = some (c, v) →
        hash (Join c []) = hash (Join columns []) → c = columns) →
      (∃ l ∈ ll.map Prod.snd, ∃ v, accepted column seperator l = some (columns, v)) →
      firstColumns column seperator (hash (Join columns [])) ll = some columns := by
  intro ll
  induction ll with
  | nil => intro _ h; simp at h
  | cons fl ll ih =>
    intro hcoll hex
    have hcoll2 : ∀ l ∈ ll.map Prod.snd, ∀ c v, accepted column seperator l = some (c, v) →
        hash (Join c []) = hash (Join columns []) → c = columns :=
      fun l hl => hcoll l (by simp only [List.map_cons]; exact List.mem_cons_of_mem _ hl)
    cases ha : accepted column seperator fl.2 with
    | none =>
      simp only [firstColumns, ha]
      apply ih hcoll2
      obtain ⟨l, hl, v, hv⟩ := hex
      simp only [List.map_cons, List.mem_cons] at hl
      rcases hl with e | e
      · subst e; rw [ha] at hv; cases hv
      · exact ⟨l, e, v, hv⟩
    | some cv =>
      obtain ⟨c, v⟩ := cv
      by_cases hk : hash (Join c []) = hash (Join columns [])
      · have hcc := hcoll fl.2 (by simp) c v ha hk
        simp [firstColumns, ha, hk, hcc]
      · simp only [firstColumns, ha, hk, if_false]
        apply ih hcoll2
        obtain ⟨l, hl, v2, hv⟩ := hex
        simp only [List.map_cons, List.mem_cons] at hl
        rcases hl with e | e
        · subst e
          rw [ha] at hv
          cases hv
          exact absurd rfl hk
        · exact ⟨l, e, v2, hv⟩

theorem sumFrom_contributions (column : Int) (seperator : Str) (columns : List Str) :
    ∀ (ll : List (Str × Str)) (t : F64),
      (∀ l ∈ ll.map Prod.snd, ∀ c v, accepted column seperator l = some (c, v) →
        hash (Join c []) = hash (Join columns []) → c = columns) →
      sumFrom t (contributions column seperator (hash (Join columns [])) ll) =
        (groupValues column seperator columns (ll.map Prod.snd)).foldl (· + ·) t := by
  intro ll
  induction ll with
  | nil => intro t _; rfl
  | cons fl ll ih =>
    intro t hcoll
    have hcoll2 : ∀ l ∈ ll.map Prod.snd, ∀ c v, accepted column seperator l = some (c, v) →
        hash (Join c []) = hash (Join columns []) → c = columns :=
      fun l hl => hcoll l (by simp only [List.map_cons]; exact List.mem_cons_of_mem _ hl)
    cases ha : accepted column seperator fl.2 with
    | none =>
      have e1 : contributions column seperator (hash (Join columns [])) (fl :: ll) =
          contributions column seperator (hash (Join columns [])) ll := by
        simp [contributions, contribution, ha]
      have e2 : groupValues column seperator columns ((fl :: ll).map Prod.snd) =
          groupValues column seperator columns (ll.map Prod.snd) := by
        simp [groupValues, ha]
      rw [e1, e2]
      exact ih t hcoll2
    | some cv =>
      obtain ⟨c, v⟩ := cv
      by_cases hk : hash (Join c []) = hash (Join columns [])
      · have hcc : c = columns := hcoll fl.2 (by simp) c v ha hk
        have e1 : contributions column seperator (hash (Join columns [])) (fl :: ll) =
            NewFile fl.1 v :: contributions column seperator (hash (Join columns [])) ll := by
          simp [contributions, contribution, ha, hk]
        have e2 : groupValues column seperator columns ((fl :: ll).map Prod.snd) =
            v :: groupValues column seperator columns (ll.map Prod.snd) := by
          simp [groupValues, ha, hcc]
        rw [e1, e2, sumFrom_cons, List.foldl_cons]
        exact ih _ hcoll2
      · have hcc : ¬ c = columns := fun e => hk (by rw [e])
        have e1 : contributions column seperator (hash (Join columns [])) (fl :: ll) =
            contributions column seperator (hash (Join columns [])) ll := by
          simp [contributions, contribution, ha, hk]
        have e2 : groupValues column seperator columns ((fl :: ll).map Prod.snd) =
            groupValues column seperator columns (ll.map Prod.snd) := by
          simp [groupValues, ha, hcc]
        rw [e1, e2]
        exact ih t hcoll2

theorem contributions_ne_nil (column : Int) (seperator : Str) (columns : List Str)
    (ll : List (Str × Str))
    (hex : ∃ l ∈ ll.map Prod.snd, ∃ v, accepted column seperator l = some (columns, v)) :
    contributions column seperator (hash (Join columns [])) ll ≠ [] := by
  obtain ⟨l, hl, v, hv⟩ := hex
  obtain ⟨fl, hfl, e⟩ := List.mem_map.1 hl
  subst e
  intro h
  have hm : NewFile fl.1 v ∈ contributions column seperator (hash (Join columns [])) ll :=
    List.mem_filterMap.2 ⟨fl, hfl, contribution_of_accepted column seperator fl.1 fl.2 columns v hv⟩
  rw [h] at hm
  simp at hm

/-- The record of a group after a run, when no line with other columns has
the key of the group. -/
theorem group_record (column : Int) (seperator : Str) (columns : List Str)
    (ll : List (Str × Str))
    (hcoll : ∀ l ∈ ll.map Prod.snd, ∀ c v, accepted column seperator l = some (c, v) →
      hash (Join c []) = hash (Join columns []) → c = columns)
    (hex : ∃ l ∈ ll.map Prod.snd, ∃ v, accepted column seperator l = some (columns, v)) :
    mapGet (ll.foldl (step column seperator) []) (hash (Join columns [])) =
      some { Columns := columns,
             Values := contributions column seperator (hash (Join columns [])) ll,
             Hash := hash (Join columns []),
             Total := (groupValues column seperator columns (ll.map Prod.snd)).foldl
               (· + ·) F64.zero } := by
  rw [mapGet_run, firstColumns_of_group column seperator columns ll hcoll hex,
    sumFrom_contributions column seperator columns ll F64.zero hcoll]
  rfl

theorem writeRow_mem (seperator : Str) (summary : SummaryMap) (k : Str) (r : Row)
    (out : List Str) (hr : mapGet summary k = some r)
    (h : writeLines seperator summary = some out) : writeRow seperator r ∈ out := by
  unfold writeLines at h
  cases hs : sortSummary (summary.map Prod.snd) with
  | none => simp [hs] at h
  | some s =>
    simp only [hs, Option.map_some', Option.some.injEq] at h
    subst h
    obtain ⟨-, h2⟩ := sortSummary_spec _ s hs
    have hm : r ∈ summary.map Prod.snd :=
      List.mem_map.2 ⟨(k, r), mapGet_some_mem summary k r hr, rfl⟩
    exact List.mem_map.2 ⟨r, h2.mem_iff.2 hm, rfl⟩

/-! ## Lines that are accumulated, lines that are printed -/

/-- Every line that passes the two checks on the number of fields changes the
record of its key, whether or not `ParseFloat` reports an error: the record
gains the contribution of the line. -/
theorem accepted_line_is_accumulated (column : Int) (seperator f : Str) (ln : Nat) (st : State)
    (l : Str) (columns : List Str) (v : F64) (hc : 1 ≤ column)
    (ha : accepted column seperator l = some (columns, v)) :
    ∃ st2, readLine column seperator f ln st l = some st2 ∧
      mapGet st2.summary (hash (Join columns [])) =
        some (((mapGet st.summary (hash (Join columns []))).getD
          (NewRow columns (hash (Join columns [])))).Add v f) ∧
      st2.summary ≠ st.summary := by
  obtain ⟨st2, hr, hs⟩ := readLine_summary column seperator f ln st l hc
  have hg : mapGet st2.summary (hash (Join columns [])) =
      some (((mapGet st.summary (hash (Join columns []))).getD
        (NewRow columns (hash (Join columns [])))).Add v f) := by
    rw [hs, mapGet_step]
    simp only [groupStep, ha, if_true]
  refine ⟨st2, hr, hg, ?_⟩
  intro e
  rw [e] at hg
  cases ho : mapGet st.summary (hash (Join columns [])) with
  | none => rw [ho] at hg; cases hg
  | some r =>
    rw [ho] at hg
    simp only [Option.getD_some, Option.some.injEq] at hg
    have hlen := congrArg (fun x => x.Values.length) hg
    simp [Row.Add] at hlen

/-- The form of the lines of `write` when every record has a contribution:
one line per record, made of the Total, then each column preceded by the
separator, then a newline. -/
theorem write_lines_format (seperator : Str) (summary : SummaryMap) (out : List Str)
    (hv : ∀ p ∈ summary, p.2.Values ≠ [])
    (h : writeLines seperator summary = some out) :
    out.length = summary.length ∧
    ∃ s : List Row, s.Perm (summary.map Prod.snd) ∧
      out = s.map (fun r =>
        FormatFloat r.Total ++ r.Columns.flatMap (fun v => seperator ++ v) ++ ['\n']) := by
  unfold writeLines at h
  cases hs : sortSummary (summary.map Prod.snd) with
  | none => simp [hs] at h
  | some s =>
    simp only [hs, Option.map_some', Option.some.injEq] at h
    subst h
    obtain ⟨-, h2⟩ := sortSummary_spec _ s hs
    refine ⟨by simpa using h2.length_eq, s, h2, ?_⟩
    apply List.map_congr_left
    intro r hr
    obtain ⟨p, hp, e⟩ := List.mem_map.1 (h2.mem_iff.1 hr)
    subst e
    have hpos : p.2.Values.length > 0 := List.length_pos.2 (hv p hp)
    simp [writeRow, hpos]

/-! ## Runs with any column index -/

/-- Whenever the loop body returns, its effect on the map is `step`. -/
theorem readLine_summary_of_some (column : Int) (seperator f : Str) (ln : Nat) (st st2 : State)
    (l : Str) (h : readLine column seperator f ln st l = some st2) :
    st2.summary = step column seperator st.summary (f, l) := by
  unfold readLine at h
  unfold step accepted
  simp only [] at h ⊢
  by_cases h0 : (Split (TrimSpace l) seperator).length = 0
  · simp only [h0, if_true, Option.some.injEq] at h
    subst h
    simp only [readerr, h0, if_true]
  · by_cases h1 : column > ((Split (TrimSpace l) seperator).length : Int)
    · simp only [h0, h1, if_true, if_false, Option.some.injEq] at h
      subst h
      simp only [readerr, h0, h1, if_true, if_false]
    · simp only [h0, h1, if_false] at h ⊢
      cases hf : index (Split (TrimSpace l) seperator) (column - 1) with
      | none => simp [hf] at h
      | some field =>
        simp only [hf, Option.map_some'] at h ⊢
        obtain ⟨r, hr1, hr2⟩ := commit_eq st.summary
          (dropColumn column 0 (Split (TrimSpace l) seperator)) (ParseFloat field).1 f
        by_cases he : (ParseFloat field).2.isSome
        · simp only [he, if_true, readerr] at h
          simp only [hr1, Option.some.injEq] at h
          subst h
          exact hr2
        · simp only [if_neg he] at h
          simp only [hr1, Option.some.injEq] at h
          subst h
          exact hr2

theorem readLoop_summary_of_some (column : Int) (seperator f : Str) :
    ∀ (r : List Str) (ln : Nat) (st st2 : State),
      readLoop column seperator f r ln st = some st2 →
        st2.summary = (r.map (fun l => (f, l))).foldl (step column seperator) st.summary := by
  intro r
  induction r with
  | nil =>
    intro ln st st2 h
    simp only [readLoop, Option.some.injEq] at h
    subst h
    rfl
  | cons l r ih =>
    intro ln st st2 h
    unfold readLoop at h
    cases h1 : readLine column seperator f (ln + 1) st l with
    | none => simp [h1] at h
    | some st1 =>
      simp only [h1, Option.some_bind] at h
      have e1 := readLine_summary_of_some column seperator f (ln + 1) st st1 l h1
      have e2 := ih (ln + 1) st1 st2 h
      simp [e2, e1]

theorem readfile_summary_of_some (column : Int) (seperator : Str) :
    ∀ (files : List (Str × FileStatus)) (st st2 : State),
      readfile column seperator files st = some st2 →
        st2.summary = (labelledLines files).foldl (step column seperator) st.summary := by
  intro files
  induction files with
  | nil =>
    intro st st2 h
    simp only [readfile, Option.some.injEq] at h
    subst h
    rfl
  | cons a files ih =>
    intro st st2 h
    obtain ⟨f, s⟩ := a
    cases s with
    | missing =>
      simp only [readfile] at h
      simpa [labelledLines] using ih _ st2 h
    | unreadable =>
      simp only [readfile] at h
      simpa [labelledLines] using ih _ st2 h
    | lines r =>
      simp only [readfile] at h
      cases h1 : readinput column seperator r f st with
      | none => simp [h1] at h
      | some st1 =>
        simp only [h1, Option.some_bind] at h
        have e1 := readLoop_summary_of_some column seperator f r 0 st st1 h1
        have e2 := ih st1 st2 h
        simp [labelledLines, List.foldl_append, e2, e1]

/-! ## Reachable maps -/

theorem firstColumns_some (column : Int) (seperator : Str) (k : Str) :
    ∀ (ll : List (Str × Str)) (c : List Str),
      firstColumns column seperator k ll = some c →
        hash (Join c []) = k ∧ contributions column seperator k ll ≠ [] := by
  intro ll
  induction ll with
  | nil => intro c h; simp [firstColumns] at h
  | cons fl ll ih =>
    intro c h
    cases hc : contribution column seperator k fl with
    | none =>
      rw [firstColumns_skip _ _ _ _ _ hc] at h
      obtain ⟨h1, h2⟩ := ih c h
      exact ⟨h1, by simpa [contributions, hc] using h2⟩
    | some x =>
      obtain ⟨columns, ha, hk, -, -⟩ := groupStep_hit column seperator k none fl x hc
      simp only [firstColumns, ha, hk, if_true, Option.some.injEq] at h
      subst h
      exact ⟨hk, by simp [contributions, hc]⟩

/-- What holds of every record of a reachable map: its keys are distinct, and
each record has a contribution, a Total that is the float64 sum of its values
in insertion order from 0, a `Hash` equal to its key, and a key that is the
hash of the concatenation of its columns. -/
theorem reachable_records (m : SummaryMap) (h : Reachable m) :
    (m.map Prod.fst).Nodup ∧
    ∀ p ∈ m, p.2.Values ≠ [] ∧ p.2.Total = sumFrom F64.zero p.2.Values ∧
      p.2.Hash = p.1 ∧ p.1 = hash (Join p.2.Columns []) := by
  obtain ⟨column, seperator, files, st, hst, e⟩ := h
  have hs := readfile_summary_of_some column seperator files State.init st hst
  have hs2 : m = (labelledLines files).foldl (step column seperator) [] := by
    rw [← e, hs]; rfl
  have hnd : (m.map Prod.fst).Nodup := by
    rw [hs2]
    exact keys_foldl_step_nodup column seperator _ [] (by simp)
  refine ⟨hnd, ?_⟩
  intro p hp
  obtain ⟨k, r⟩ := p
  have hg := mapGet_of_mem m k r hnd hp
  rw [hs2, mapGet_run] at hg
  cases hc : firstColumns column seperator k (labelledLines files) with
  | none => simp [hc] at hg
  | some c =>
    obtain ⟨h1, h2⟩ := firstColumns_some column seperator k _ c hc
    simp only [hc, Option.map_some', Option.some.injEq] at hg
    subst hg
    exact ⟨h2, rfl, rfl, h1.symm⟩

/-- The map of the example is reachable. -/
theorem reachable_exampleSummary : Reachable exampleSummary :=
  ⟨2, [','], [(stdinLabel, FileStatus.lines exampleLines)], ⟨exampleSummary, []⟩,
    by set_option maxRecDepth 100000 in decide!, rfl⟩

/-! ## What is printed while reading -/

theorem readLine_stdout (column : Int) (seperator f : Str) (ln : Nat) (st st2 : State)
    (l : Str) (h : readLine column seperator f ln st l = some st2) :
    st2.stdout = st.stdout ++ lineDiag column seperator f ln l := by
  unfold readLine at h
  unfold lineDiag
  simp only [] at h ⊢
  by_cases h0 : (Split (TrimSpace l) seperator).length = 0
  · simp only [h0, if_true, Option.some.injEq] at h
    subst h
    simp only [readerr, h0, if_true]
  · by_cases h1 : column > ((Split (TrimSpace l) seperator).length : Int)
    · simp only [h0, h1, if_true, if_false, Option.some.injEq] at h
      subst h
      simp only [readerr, h0, h1, if_true, if_false]
    · simp only [h0, h1, if_false] at h ⊢
      cases hf : index (Split (TrimSpace l) seperator) (column - 1) with
      | none => simp [hf] at h
      | some field =>
        simp only [hf] at h ⊢
        obtain ⟨r, hr1, -⟩ := commit_eq st.summary
          (dropColumn column 0 (Split (TrimSpace l) seperator)) (ParseFloat field).1 f
        by_cases he : (ParseFloat field).2.isSome
        · simp only [he, if_true, readerr] at h ⊢
          simp only [hr1, Option.some.injEq] at h
          subst h
          rfl
        · simp only [if_neg he] at h ⊢
          simp only [hr1, Option.some.injEq] at h
          subst h
          simp

theorem readLoop_stdout (column : Int) (seperator f : Str) :
    ∀ (r : List Str) (ln : Nat) (st st2 : State),
      readLoop column seperator f r ln st = some st2 → ∃ d, st2.stdout = st.stdout ++ d := by
  intro r
  induction r with
  | nil =>
    intro ln st st2 h
    simp only [readLoop, Option.some.injEq] at h
    subst h
    exact ⟨[], by simp⟩
  | cons l r ih =>
    intro ln st st2 h
    unfold readLoop at h
    cases h1 : readLine column seperator f (ln + 1) st l with
    | none => simp [h1] at h
    | some st1 =>
      simp only [h1, Option.some_bind] at h
      obtain ⟨d, hd⟩ := ih (ln + 1) st1 st2 h
      exact ⟨lineDiag column seperator f (ln + 1) l ++ d, by
        rw [hd, readLine_stdout column seperator f (ln + 1) st st1 l h1, List.append_assoc]⟩

/-- The diagnostic of the line at index `i` of a source is on standard output
after the source is read; the line has the number `ln + i + 1`. -/
theorem readLoop_mem (column : Int) (seperator f : Str) (p : Printed) :
    ∀ (r : List Str) (ln : Nat) (st st2 : State) (i : Nat) (l : Str),
      readLoop column seperator f r ln st = some st2 → r.get? i = some l →
      p ∈ lineDiag column seperator f (ln + i + 1) l → p ∈ st2.stdout := by
  intro r
  induction r with
  | nil => intro ln st st2 i l _ hi; simp at hi
  | cons x r ih =>
    intro ln st st2 i l h hi hp
    unfold readLoop at h
    cases h1 : readLine column seperator f (ln + 1) st x with
    | none => simp [h1] at h
    | some st1 =>
      simp only [h1, Option.some_bind] at h
      cases i with
      | zero =>
        simp only [List.get?_cons_zero, Option.some.injEq] at hi
        subst hi
        obtain ⟨d, hd⟩ := readLoop_stdout column seperator f r (ln + 1) st1 st2 h
        rw [hd, readLine_stdout column seperator f (ln + 1) st st1 x h1]
        exact List.mem_append_left _ (List.mem_append_right _ hp)
      | succ j =>
        simp only [List.get?_cons_succ] at hi
        have e : ln + (j + 1) + 1 = ln + 1 + j + 1 := by omega
        rw [e] at hp
        exact ih (ln + 1) st1 st2 j l h hi hp

theorem readfile_stdout (column : Int) (seperator : Str) :
    ∀ (files : List (Str × FileStatus)) (st st2 : State),
      readfile column seperator files st = some st2 → ∃ d, st2.stdout = st.stdout ++ d := by
  intro files
  induction files with
  | nil =>
    intro st st2 h
    simp only [readfile, Option.some.injEq] at h
    subst h
    exact ⟨[], by simp⟩
  | cons a files ih =>
    intro st st2 h
    obtain ⟨f, s⟩ := a
    cases s with
    | missing =>
      simp only [readfile] at h
      obtain ⟨d, hd⟩ := ih _ st2 h
      exact ⟨_, by rw [hd, List.append_assoc]⟩
    | unreadable =>
      simp only [readfile] at h
      obtain ⟨d, hd⟩ := ih _ st2 h
      exact ⟨_, by rw [hd, List.append_assoc]⟩
    | lines r =>
      simp only [readfile] at h
      cases h1 : readinput column seperator r f st with
      | none => simp [h1] at h
      | some st1 =>
        simp only [h1, Option.some_bind] at h
        obtain ⟨d1, hd1⟩ := readLoop_stdout column seperator f r 0 st st1 h1
        obtain ⟨d2, hd2⟩ := ih st1 st2 h
        exact ⟨d1 ++ d2, by rw [hd2, hd1, List.append_assoc]⟩

/-- Everything `readfile` has to report is on standard output afterwards: the
skipped files and the diagnostics of the lines. -/
theorem readfile_mem (column : Int) (seperator : Str) :
    ∀ (files : List (Str × FileStatus)) (st st2 : State),
      readfile column seperator files st = some st2 →
      (∀ f, (f, FileStatus.missing) ∈ files →
        Printed.text (f ++ " Could not be found... skipping\n".toList) ∈ st2.stdout) ∧
      (∀ f, (f, FileStatus.unreadable) ∈ files →
        Printed.text ("Could not open file ".toList ++ f ++ " ... skipping\n".toList)
          ∈ st2.stdout) ∧
      (∀ f r i l p, (f, FileStatus.lines r) ∈ files → r.get? i = some l →
        p ∈ lineDiag column seperator f (i + 1) l → p ∈ st2.stdout) := by
  intro files
  induction files with
  | nil =>
    intro st st2 _
    exact ⟨by simp, by simp, by simp⟩
  | cons a files ih =>
    intro st st2 h
    obtain ⟨g, s⟩ := a
    cases s with
    | missing =>
      simp only [readfile] at h
      obtain ⟨i1, i2, i3⟩ := ih _ st2 h
      obtain ⟨d, hd⟩ := readfile_stdout column seperator files _ st2 h
      refine ⟨?_, ?_, ?_⟩
      · intro f hf
        rcases List.mem_cons.1 hf with e | e
        · cases e
          rw [hd]
          simp
        · exact i1 f e
      · intro f hf
        rcases List.mem_cons.1 hf with e | e
        · cases e
        · exact i2 f e
      · intro f r i l p hf
        rcases List.mem_cons.1 hf with e | e
        · cases e
        · exact i3 f r i l p e
    | unreadable =>
      simp only [readfile] at h
      obtain ⟨i1, i2, i3⟩ := ih _ st2 h
      obtain ⟨d, hd⟩ := readfile_stdout column seperator files _ st2 h
      refine ⟨?_, ?_, ?_⟩
      · intro f hf
        rcases List.mem_cons.1 hf with e | e
        · cases e
        · exact i1 f e
      · intro f hf
        rcases List.mem_cons.1 hf with e | e
        · cases e
          rw [hd]
          simp
        · exact i2 f e
      · intro f r i l p hf
        rcases List.mem_cons.1 hf with e | e
        · cases e
        · exact i3 f r i l p e
    | lines r0 =>
      simp only [readfile] at h
      cases h1 : readinput column seperator r0 g st with
      | none => simp [h1] at h
      | some st1 =>
        simp only [h1, Option.some_bind] at h
        obtain ⟨i1, i2, i3⟩ := ih st1 st2 h
        obtain ⟨d, hd⟩ := readfile_stdout column seperator files st1 st2 h
        refine ⟨?_, ?_, ?_⟩
        · intro f hf
          rcases List.mem_cons.1 hf with e | e
          · cases e
          · exact i1 f e
        · intro f hf
          rcases List.mem_cons.1 hf with e | e
          · cases e
          · exact i2 f e
        · intro f r i l p hf hi hp
          rcases List.mem_cons.1 hf with e | e
          · cases e
            have hm := readLoop_mem column seperator g p r0 0 st st1 i l h1 hi
              (by simpa using hp)
            rw [hd]
            exact List.mem_append_left _ hm
          · exact i3 f r i l p e hi hp

/-- The sources of `main` are read by `readfile` or, for standard input, by
`readstdin`, which does the same as `readfile` on the one source `stdin`. -/
theorem main_eq (column : Int) (seperator : Str) (args : List (Str × FileStatus))
    (stdin : List Str) :
    main column seperator args stdin =
      (readfile column seperator (sources args stdin) State.init).bind
        (fun st => (write seperator st.summary).map (fun t => st.stdout ++ [Printed.text t])) := by
  unfold main sources
  by_cases h : args.length > 0
  · simp only [h, if_true]
  · simp only [h, if_false, readstdin, readfile]
    cases readinput column seperator stdin "stdin".toList State.init <;> rfl

/-! ## Ties, panics and empty lines -/

theorem char_eq_of_toNat_eq (a b : Char) (h : a.toNat = b.toNat) : a = b := by
  rw [← Char.ofNat_toNat a, ← Char.ofNat_toNat b, h]

/-- The order `≤` of strings is antisymmetric. -/
theorem strLess_antisymm : ∀ (a b : Str),
    strLess a b = false → strLess b a = false → a = b := by
  intro a
  induction a with
  | nil =>
    intro b h _
    cases b with
    | nil => rfl
    | cons y t => simp [strLess] at h
  | cons x s ih =>
    intro b h1 h2
    cases b with
    | nil => simp [strLess] at h2
    | cons y t =>
      simp only [strLess, Bool.or_eq_false_iff, decide_eq_false_iff_not, Bool.and_eq_false_iff,
        beq_eq_false_iff_ne] at h1 h2
      obtain ⟨h1a, h1b⟩ := h1
      obtain ⟨h2a, h2b⟩ := h2
      have hxy : x.toNat = y.toNat := by omega
      have hts : s = t := by
        rcases h1b with h | h
        · exact absurd hxy h
        · rcases h2b with h3 | h3
          · exact absurd hxy.symm h3
          · exact ih t h h3
      rw [char_eq_of_toNat_eq x y hxy, hts]

theorem firstLE_antisymm (a b : Row) (h1 : firstLE a b) (h2 : firstLE b a) :
    a.Columns.head? = b.Columns.head? := by
  obtain ⟨x, y, hx, hy, hxy⟩ := h1
  obtain ⟨y2, x2, hy2, hx2, hyx⟩ := h2
  rw [hy] at hy2
  rw [hx] at hx2
  cases hy2
  cases hx2
  rw [hx, hy, strLess_antisymm y x hxy hyx]

/-- The sort gives the same result on two orders of the same records when no
two of them have the same first column. -/
theorem sortSummary_perm_eq (s1 s2 t1 t2 : Summary) (hp : s2.Perm s1)
    (hdist : ∀ a ∈ s1, ∀ b ∈ s1, a.Columns.head? = b.Columns.head? → a = b)
    (h1 : sortSummary s1 = some t1) (h2 : sortSummary s2 = some t2) : t2 = t1 := by
  obtain ⟨p1, q1⟩ := sortSummary_spec s1 t1 h1
  obtain ⟨p2, q2⟩ := sortSummary_spec s2 t2 h2
  refine List.Perm.eq_of_sorted ?_ p2 p1 ((q2.trans hp).trans q1.symm)
  intro a b ha hb hab hba
  exact hdist a (hp.mem_iff.1 (q2.mem_iff.1 ha)) b (q1.mem_iff.1 hb)
    (firstLE_antisymm a b hab hba)

/-- The loop body panics exactly when the line has a field and the column index
is below 1: the index `column - 1` is then negative. -/
theorem readLine_eq_none_iff (column : Int) (seperator f : Str) (ln : Nat) (st : State)
    (l : Str) :
    readLine column seperator f ln st l = none ↔
      (Split (TrimSpace l) seperator).length ≠ 0 ∧ column ≤ 0 := by
  constructor
  · intro h
    by_cases h0 : (Split (TrimSpace l) seperator).length = 0
    · simp [readLine, h0] at h
    · refine ⟨h0, ?_⟩
      by_contra hc
      obtain ⟨st2, h2, -⟩ := readLine_summary column seperator f ln st l (by omega)
      rw [h] at h2
      cases h2
  · intro ⟨h0, hc⟩
    have h1 : ¬ column > ((Split (TrimSpace l) seperator).length : Int) := by omega
    have h2 : index (Split (TrimSpace l) seperator) (column - 1) = none := by
      have : column - 1 < 0 := by omega
      simp [index, this]
    unfold readLine
    simp only [h0, h1, if_false, h2]

theorem splitLoop_ne_nil (sep : Str) : ∀ (s : Str) (k : Nat) (cur : Str),
    splitLoop sep s k cur ≠ [] := by
  intro s
  induction s with
  | nil => intro k cur; simp [splitLoop]
  | cons c s ih =>
    intro k cur
    cases k with
    | succ k => simpa [splitLoop] using ih k cur
    | zero =>
      by_cases h : hasPrefix sep (c :: s) = true
      · simp [splitLoop, h]
      · simpa [splitLoop, h] using ih 0 (c :: cur)

theorem Split_length_pos (s sep : Str) (h : sep ≠ []) : (Split s sep).length ≠ 0 := by
  simp only [Split, h, if_false]
  intro e
  exact splitLoop_ne_nil sep s 0 [] (List.length_eq_zero.1 e)

theorem trimLeft_of_space : ∀ (l : Str), (∀ c ∈ l, isSpace c = true) → trimLeft l = [] := by
  intro l
  induction l with
  | nil => intro _; rfl
  | cons c l ih =>
    intro h
    have hc : isSpace c = true := h c (by simp)
    simp only [trimLeft, hc, if_true]
    exact ih (fun d hd => h d (List.mem_cons_of_mem _ hd))

theorem TrimSpace_of_space (l : Str) (h : ∀ c ∈ l, isSpace c = true) : TrimSpace l = [] := by
  simp [TrimSpace, trimLeft_of_space l h, trimLeft]

/-- The map of `tieLines` is what the program builds from them. -/
theorem readfile_tieLines :
    readfile 2 [','] [(stdinLabel, FileStatus.lines tieLines)] State.init =
      some { summary := tieSummary, stdout := [] } := by
  set_option maxRecDepth 100000 in decide!

/-! ## The loop body on a line whose target field exists -/

/-- The whole state after the loop body, for a line whose field at index
`column - 1` exists: the map is `accumulate` with the columns of the line and
the value `ParseFloat` returns, and a failure of `ParseFloat` is reported. -/
theorem readLine_of_index (column : Int) (seperator f : Str) (ln : Nat) (st : State)
    (l field : Str) (hf : index (Split (TrimSpace l) seperator) (column - 1) = some field) :
    readLine column seperator f ln st l =
      some { summary := accumulate st.summary
               (dropColumn column 0 (Split (TrimSpace l) seperator)) (ParseFloat field).1 f,
             stdout := st.stdout ++
               if (ParseFloat field).2.isSome
               then [Printed.diag "Failed to parse line".toList ln f (ParseFloat field).2]
               else [] } := by
  have hge : ¬ (column - 1 < 0) := by
    intro hneg
    simp [index, hneg] at hf
  have hlen : (column - 1).toNat < (Split (TrimSpace l) seperator).length := by
    simp only [index, hge, if_false] at hf
    by_contra hcon
    rw [List.get?_eq_getElem?, List.getElem?_eq_none (by omega)] at hf
    cases hf
  have h0 : ¬ (Split (TrimSpace l) seperator).length = 0 := by omega
  have h1 : ¬ column > ((Split (TrimSpace l) seperator).length : Int) := by omega
  unfold readLine
  simp only [h0, h1, if_false, hf]
  obtain ⟨r, hr1, hr2⟩ := commit_eq st.summary
    (dropColumn column 0 (Split (TrimSpace l) seperator)) (ParseFloat field).1 f
  by_cases he : (ParseFloat field).2.isSome
  · simp only [he, if_true, readerr]
    simp only [hr1, hr2]
  · simp only [if_neg he]
    simp only [hr1, hr2, List.append_nil]

/-! ## Splitting a joined line -/

theorem splitLoop_field (c : Char) : ∀ (a s cur : Str), c ∉ a →
    splitLoop [c] (a ++ s) 0 cur = splitLoop [c] s 0 (a.reverse ++ cur) := by
  intro a
  induction a with
  | nil => intro s cur _; rfl
  | cons x a ih =>
    intro s cur h
    have hx : ¬ c = x := fun e => h (by simp [e])
    have ha : c ∉ a := fun e => h (List.mem_cons_of_mem _ e)
    have hp : hasPrefix [c] (x :: (a ++ s)) = false := by
      simp [hasPrefix, hx]
    rw [List.cons_append, splitLoop, if_neg (by simp [hp]), ih s (x :: cur) ha]
    simp

theorem splitLoop_sep (c : Char) (s cur : Str) :
    splitLoop [c] (c :: s) 0 cur = cur.reverse :: splitLoop [c] s 0 [] := by
  have hp : hasPrefix [c] (c :: s) = true := by simp [hasPrefix]
  rw [splitLoop, if_pos hp]
  rfl

/-- Splitting at `c` the fields joined with `c` gives the fields back, when
there is a field and no field contains `c`. -/
theorem splitLoop_Join (c : Char) : ∀ (fields : List Str), fields ≠ [] →
    (∀ x ∈ fields, c ∉ x) → splitLoop [c] (Join fields [c]) 0 [] = fields := by
  intro fields
  induction fields with
  | nil => intro h; exact absurd rfl h
  | cons a rest ih =>
    intro _ hf
    have ha : c ∉ a := hf a (by simp)
    cases rest with
    | nil =>
      have h := splitLoop_field c a [] [] ha
      simp only [List.append_nil] at h
      simp only [Join, h, splitLoop, List.reverse_reverse]
    | cons b r =>
      have h := splitLoop_field c a (c :: Join (b :: r) [c]) [] ha
      simp only [List.append_nil] at h
      have e : Join (a :: b :: r) [c] = a ++ c :: Join (b :: r) [c] := by
        simp [Join]
      rw [e, h, splitLoop_sep, List.reverse_reverse,
        ih (by simp) (fun x hx => hf x (List.mem_cons_of_mem _ hx))]

theorem Split_Join (c : Char) (fields : List Str) (h : fields ≠ [])
    (hf : ∀ x ∈ fields, c ∉ x) : Split (Join fields [c]) [c] = fields := by
  simp only [Split, List.cons_ne_nil, if_false]
  exact splitLoop_Join c fields h hf

/-! ## Reachable maps and what `write` prints -/

theorem reachable_raggedSummary : Reachable raggedSummary :=
  ⟨1, [','], [(stdinLabel, FileStatus.lines raggedLines)],
    { summary := raggedSummary, stdout := [] },
    by set_option maxRecDepth 100000 in decide!, rfl⟩

/-- In every reachable map every record has at least one contribution, so
the guard of `write` holds for it: the line of the record is its Total followed
by each of its columns after a separator, and a newline. -/
theorem reachable_records_have_a_contribution (m : SummaryMap) (seperator : Str)
    (h : Reachable m) :
    ∀ p ∈ m, p.2.Values ≠ [] ∧ p.2.Values.length > 0 ∧
      writeRow seperator p.2 =
        FormatFloat p.2.Total ++ p.2.Columns.flatMap (fun v => seperator ++ v) ++ ['\n'] := by
  intro p hp
  have hv := ((reachable_records m h).2 p hp).1
  have hpos : p.2.Values.length > 0 := List.length_pos.2 hv
  exact ⟨hv, hpos, by simp [writeRow, hpos]⟩

/-- In a reachable map every record has a contribution, and whenever `write`
returns, the line of every record, with each of its columns after a separator,
is among the lines written. -/
theorem reachable_columns_printed_when_write_returns (m : SummaryMap) (seperator : Str)
    (out : List Str) (h : Reachable m) (hw : writeLines seperator m = some out) :
    ∀ p ∈ m, p.2.Values.length > 0 ∧
      FormatFloat p.2.Total ++ p.2.Columns.flatMap (fun v => seperator ++ v) ++ ['\n'] ∈ out := by
  intro p hp
  have hv := ((reachable_records m h).2 p hp).1
  have hpos : p.2.Values.length > 0 := List.length_pos.2 hv
  refine ⟨hpos, ?_⟩
  unfold writeLines at hw
  cases hs : sortSummary (m.map Prod.snd) with
  | none => simp [hs] at hw
  | some s =>
    simp only [hs, Option.map_some', Option.some.injEq] at hw
    subst hw
    obtain ⟨-, h2⟩ := sortSummary_spec _ s hs
    have hm : p.2 ∈ m.map Prod.snd := List.mem_map.2 ⟨p, hp, rfl⟩
    have hm2 : writeRow seperator p.2 ∈ s.map (writeRow seperator) :=
      List.mem_map.2 ⟨p.2, h2.mem_iff.2 hm, rfl⟩
    simpa [writeRow, hpos] using hm2

/-! ## The claims -/

/-- C4. The lines `write` prints are in ascending order of the first grouping
column: whenever `write` returns, its lines are those of a permutation of the
records in which every record before another has a first column that is at most
the other one's under Go's string comparison; and `write` does return when
every record has a column. -/
theorem write_lines_sorted (seperator : Str) (summary : SummaryMap) :
    ((∀ p ∈ summary, p.2.Columns ≠ []) → ∃ out, writeLines seperator summary = some out) ∧
    (∀ out, writeLines seperator summary = some out →
      ∃ s : List Row, s.Perm (summary.map Prod.snd) ∧ out = s.map (writeRow seperator) ∧
        s.Pairwise firstLE) := by
  constructor
  · intro h
    obtain ⟨t, ht⟩ := sortSummary_isSome (summary.map Prod.snd) (by
      intro r hr
      obtain ⟨p, hp, e⟩ := List.mem_map.1 hr
      subst e
      exact h p hp)
    exact ⟨t.map (writeRow seperator), by simp [writeLines, ht]⟩
  · intro out h
    unfold writeLines at h
    cases hs : sortSummary (summary.map Prod.snd) with
    | none => simp [hs] at h
    | some s =>
      simp only [hs, Option.map_some', Option.some.injEq] at h
      obtain ⟨h1, h2⟩ := sortSummary_spec _ s hs
      exact ⟨s, h2, h.symm, h1⟩

/-- C6. A line with fewer fields than the column index is reported and leaves
the map unchanged: the state after the line is the state before it with one
diagnostic more, without an error of `ParseFloat`. -/
theorem short_line_skipped (column : Int) (seperator f : Str) (ln : Nat) (st : State) (l : Str)
    (h : ((Split (TrimSpace l) seperator).length : Int) < column) :
    readLine column seperator f ln st l =
      some { summary := st.summary,
             stdout := st.stdout ++
               [Printed.diag
                 (if (Split (TrimSpace l) seperator).length = 0
                  then "No columns parsed from line".toList
                  else "No enough columns to meet requested column number".toList) ln f none] } := by
  unfold readLine
  by_cases h0 : (Split (TrimSpace l) seperator).length = 0
  · simp [h0, readerr]
  · have h1 : column > ((Split (TrimSpace l) seperator).length : Int) := h
    simp [h0, h1, readerr]

/-- C8. For a line with `n` fields and `1 ≤ column ≤ n` the group columns are
the fields without the one at index `column - 1`, in their order: there are
`n - 1` of them, the `i`-th is field `i` before the removed index and field
`i + 1` from it on; they are the columns `readLine` takes from the line and
the `Columns` of the record it creates when the key is new. -/
theorem columns_are_fields_without_target (column : Int) (seperator f : Str) (ln : Nat)
    (st : State) (l : Str) (h1 : 1 ≤ column)
    (h2 : column ≤ ((Split (TrimSpace l) seperator).length : Int)) :
    (dropColumn column 0 (Split (TrimSpace l) seperator)).length + 1 =
        (Split (TrimSpace l) seperator).length ∧
    (∀ i : Nat, (dropColumn column 0 (Split (TrimSpace l) seperator)).get? i =
        if (i : Int) < column - 1 then (Split (TrimSpace l) seperator).get? i
        else (Split (TrimSpace l) seperator).get? (i + 1)) ∧
    (∃ v, accepted column seperator l =
        some (dropColumn column 0 (Split (TrimSpace l) seperator), v)) ∧
    (mapGet st.summary
        (hash (Join (dropColumn column 0 (Split (TrimSpace l) seperator)) [])) = none →
      ∃ st2 r, readLine column seperator f ln st l = some st2 ∧
        mapGet st2.summary
          (hash (Join (dropColumn column 0 (Split (TrimSpace l) seperator)) [])) = some r ∧
        r.Columns = dropColumn column 0 (Split (TrimSpace l) seperator)) := by
  have hd := dropColumn_eq_eraseIdx column (Split (TrimSpace l) seperator) 0 (by push_cast; omega)
  have hlt : (column - 1).toNat < (Split (TrimSpace l) seperator).length := by omega
  have h0 : ¬ (Split (TrimSpace l) seperator).length = 0 := by omega
  have hgt : ¬ column > ((Split (TrimSpace l) seperator).length : Int) := by omega
  obtain ⟨field, hf, -⟩ := index_of_range _ column h1 hgt
  have hacc : accepted column seperator l =
      some (dropColumn column 0 (Split (TrimSpace l) seperator), (ParseFloat field).1) := by
    simp [accepted, h0, hgt, hf]
  refine ⟨?_, ?_, ⟨_, hacc⟩, ?_⟩
  · rw [hd, List.length_eraseIdx]
    simp only [Nat.cast_zero, sub_zero, hlt, if_true]
    omega
  · intro i
    rw [hd]
    simp only [Nat.cast_zero, sub_zero, List.get?_eq_getElem?, List.getElem?_eraseIdx]
    by_cases hi : i < (column - 1).toNat
    · have hi2 : (i : Int) < column - 1 := by omega
      rw [if_pos hi, if_pos hi2]
    · have hi2 : ¬ (i : Int) < column - 1 := by omega
      rw [if_neg hi, if_neg hi2]
  · intro hnone
    obtain ⟨st2, hr, hs⟩ := readLine_summary column seperator f ln st l h1
    have hg : mapGet st2.summary
        (hash (Join (dropColumn column 0 (Split (TrimSpace l) seperator)) [])) =
        some ((NewRow (dropColumn column 0 (Split (TrimSpace l) seperator))
          (hash (Join (dropColumn column 0 (Split (TrimSpace l) seperator)) []))).Add
            (ParseFloat field).1 f) := by
      rw [hs, mapGet_step]
      simp only [groupStep, hacc, if_true, hnone, Option.getD_none]
    exact ⟨st2, _, hr, hg, rfl⟩

/-- C10. For fields that contain neither `,` nor `|`, the loop body of
`readinput` on the fields joined with `|`, with the separator `|`, has the same
outcome as on the fields joined with `,`, with the separator `,`, for every
column index: the same state (records, columns, values, diagnostics) or the
same panic.  Both lines are split into the same fields, which are the given
ones when the joined line has no white space at its ends.  When the field at
index `column - 1` exists, the body under `|` accumulates the value
`ParseFloat` returns for that field under the other fields as columns, and
reports a failure of `ParseFloat`; when the column index exceeds the number of
fields, it reports the line and leaves the map as it is; when the column index
is below 1, it panics.  The line `x|5|y` with column 2 gives one record with
the value 5 and the columns `x`, `y`, as the line `x,5,y` does under `,`. -/
theorem separator_independent (fields : List Str) (column : Int) (f : Str) (ln : Nat)
    (st : State) (hf : ∀ x ∈ fields, ',' ∉ x ∧ '|' ∉ x) :
    readLine column ['|'] f ln st (Join fields ['|']) =
        readLine column [','] f ln st (Join fields [',']) ∧
    accepted column ['|'] (Join fields ['|']) = accepted column [','] (Join fields [',']) ∧
    accepted 2 ['|'] "x|5|y".toList = some (["x".toList, "y".toList], F64.ofNat 5) ∧
    Split (TrimSpace (Join fields ['|'])) ['|'] = Split (TrimSpace (Join fields [','])) [','] ∧
    (fields ≠ [] → TrimSpace (Join fields ['|']) = Join fields ['|'] →
      Split (TrimSpace (Join fields ['|'])) ['|'] = fields) ∧
    (∀ field, index (Split (TrimSpace (Join fields [','])) [',']) (column - 1) = some field →
      readLine column ['|'] f ln st (Join fields ['|']) =
        some { summary := accumulate st.summary
                 (dropColumn column 0 (Split (TrimSpace (Join fields [','])) [',']))
                 (ParseFloat field).1 f,
               stdout := st.stdout ++
                 if (ParseFloat field).2.isSome
                 then [Printed.diag "Failed to parse line".toList ln f (ParseFloat field).2]
                 else [] }) ∧
    ((Split (TrimSpace (Join fields [','])) [',']).length ≠ 0 →
      column > ((Split (TrimSpace (Join fields [','])) [',']).length : Int) →
      readLine column ['|'] f ln st (Join fields ['|']) =
        some { summary := st.summary,
               stdout := st.stdout ++
                 [Printed.diag "No enough columns to meet requested column number".toList
                   ln f none] }) ∧
    ((Split (TrimSpace (Join fields [','])) [',']).length ≠ 0 → column ≤ 0 →
      readLine column ['|'] f ln st (Join fields ['|']) = none) ∧
    readLine 2 ['|'] stdinLabel 1 State.init "x|5|y".toList =
      some { summary :=
               [(hash "xy".toList,
                 { Columns := ["x".toList, "y".toList],
                   Values := [⟨stdinLabel, F64.ofNat 5⟩],
                   Hash := hash "xy".toList, Total := F64.ofNat 5 })],
             stdout := [] } ∧
    readLine 2 [','] stdinLabel 1 State.init "x,5,y".toList =
      readLine 2 ['|'] stdinLabel 1 State.init "x|5|y".toList := by
  have h := Split_Join_subst ',' '|' (by decide) (by decide) (by decide) fields hf
  refine ⟨?_, ?_, by decide, h, ?_, ?_, ?_, ?_,
    by set_option maxRecDepth 100000 in decide!,
    by set_option maxRecDepth 100000 in decide!⟩
  · unfold readLine
    rw [h]
  · unfold accepted
    rw [h]
  · intro hne ht
    rw [ht]
    exact Split_Join '|' fields hne (fun x hx => (hf x hx).2)
  · intro field hfield
    rw [← h] at hfield ⊢
    exact readLine_of_index column ['|'] f ln st (Join fields ['|']) field hfield
  · intro h0 h1
    rw [← h] at h0 h1
    unfold readLine
    simp only [h0, h1, if_true, if_false, readerr]
  · intro h0 h1
    rw [← h] at h0
    exact (readLine_eq_none_iff column ['|'] f ln st (Join fields ['|'])).2 ⟨h0, h1⟩

/-- C1, as amended.  For a column index of at least 1 and a group of lines
with the columns `columns` such that no line with other columns has the key of
the group, the run returns, and the Total of the record of the group is the sum
of the values of those lines added in input order in float64 arithmetic from 0;
that Total is what `write` prints at the head of the line of the group, and it
is the same for every other assignment of the same lines to files. -/
theorem total_is_float_sum_in_input_order (column : Int) (seperator : Str)
    (files : List (Str × FileStatus)) (columns : List Str) (hc : 1 ≤ column)
    (hcoll : ∀ l ∈ (labelledLines files).map Prod.snd, ∀ c v,
      accepted column seperator l = some (c, v) →
      hash (Join c []) = hash (Join columns []) → c = columns)
    (hex : ∃ l ∈ (labelledLines files).map Prod.snd, ∃ v,
      accepted column seperator l = some (columns, v)) :
    ∃ st r, readfile column seperator files State.init = some st ∧
      mapGet st.summary (hash (Join columns [])) = some r ∧
      r.Columns = columns ∧
      r.Total = (groupValues column seperator columns
        ((labelledLines files).map Prod.snd)).foldl (· + ·) F64.zero ∧
      (∀ out, writeLines seperator st.summary = some out →
        FormatFloat r.Total ++ columns.flatMap (fun v => seperator ++ v) ++ ['\n'] ∈ out) ∧
      (∀ files2, (labelledLines files2).map Prod.snd = (labelledLines files).map Prod.snd →
        ∃ st2 r2, readfile column seperator files2 State.init = some st2 ∧
          mapGet st2.summary (hash (Join columns [])) = some r2 ∧ r2.Total = r.Total) := by
  obtain ⟨st, hst, hsum⟩ := readfile_summary column seperator hc files State.init
  have hg := group_record column seperator columns (labelledLines files) hcoll hex
  have hsum2 : st.summary = (labelledLines files).foldl (step column seperator) [] := hsum
  rw [← hsum2] at hg
  refine ⟨st, _, hst, hg, rfl, rfl, ?_, ?_⟩
  · intro out hout
    have hm := writeRow_mem seperator st.summary _ _ out hg hout
    have hne := contributions_ne_nil column seperator columns (labelledLines files) hex
    have hpos : (contributions column seperator (hash (Join columns []))
        (labelledLines files)).length > 0 := List.length_pos.2 hne
    simpa [writeRow, hpos] using hm
  · intro files2 h2
    obtain ⟨st2, hst2, hsum3⟩ := readfile_summary column seperator hc files2 State.init
    have hg2 := group_record column seperator columns (labelledLines files2)
      (by rw [h2]; exact hcoll) (by rw [h2]; exact hex)
    have hsum4 : st2.summary = (labelledLines files2).foldl (step column seperator) [] := hsum3
    rw [← hsum4] at hg2
    exact ⟨st2, _, hst2, hg2, by simp only [h2]⟩

/-- C3. Two accepted lines with the same group columns are accumulated into
one record: after the run the keys of the map are distinct, the record under
the key of those columns holds, in input order, the contributions of both lines
(between those of the other lines of the key), and its Total is the float64
sum of the values of all its contributions, added in that order from 0. -/
theorem same_columns_share_one_record (column : Int) (seperator : Str)
    (files : List (Str × FileStatus)) (A B C : List (Str × Str)) (f1 l1 f2 l2 : Str)
    (columns : List Str) (v1 v2 : F64) (hc : 1 ≤ column)
    (hll : labelledLines files = A ++ [(f1, l1)] ++ B ++ [(f2, l2)] ++ C)
    (h1 : accepted column seperator l1 = some (columns, v1))
    (h2 : accepted column seperator l2 = some (columns, v2)) :
    ∃ st r, readfile column seperator files State.init = some st ∧
      (st.summary.map Prod.fst).Nodup ∧
      mapGet st.summary (hash (Join columns [])) = some r ∧
      r.Values = contributions column seperator (hash (Join columns [])) A ++ [NewFile f1 v1] ++
        contributions column seperator (hash (Join columns [])) B ++ [NewFile f2 v2] ++
        contributions column seperator (hash (Join columns [])) C ∧
      r.Total = sumFrom F64.zero r.Values := by
  obtain ⟨st, hst, hsum⟩ := readfile_summary column seperator hc files State.init
  have hsum2 : st.summary = (labelledLines files).foldl (step column seperator) [] := hsum
  have hnd : (st.summary.map Prod.fst).Nodup := by
    rw [hsum2]
    exact keys_foldl_step_nodup column seperator _ [] (by simp)
  have hc1 := contribution_of_accepted column seperator f1 l1 columns v1 h1
  have hc2 := contribution_of_accepted column seperator f2 l2 columns v2 h2
  have hval : contributions column seperator (hash (Join columns [])) (labelledLines files) =
      contributions column seperator (hash (Join columns [])) A ++ [NewFile f1 v1] ++
        contributions column seperator (hash (Join columns [])) B ++ [NewFile f2 v2] ++
        contributions column seperator (hash (Join columns [])) C := by
    rw [hll]
    simp [contributions, List.filterMap_append, hc1, hc2]
  have hne : contributions column seperator (hash (Join columns [])) (labelledLines files)
      ≠ [] := by
    rw [hval]; simp
  obtain ⟨cols, hcols⟩ := firstColumns_isSome column seperator _ _ hne
  have hg := mapGet_run column seperator (hash (Join columns [])) (labelledLines files)
  rw [← hsum2, hcols] at hg
  exact ⟨st, _, hst, hnd, hg, hval, rfl⟩

/-! ## The program on concrete inputs -/

/-- C1, counterexample.  The three lines `k,1e16`, `k,1`, `k,1` form one
group whose exact sum is 10000000000000002, a float64.  Read in this order the
Total printed is `1e+16`; read in the reverse order it is
`1.0000000000000002e+16`. -/
theorem total_depends_on_order :
    (readstdin 2 [','] roundingLines State.init).bind (fun st => write [','] st.summary) =
        some "1e+16,k\n".toList ∧
    (readstdin 2 [','] roundingLines.reverse State.init).bind
        (fun st => write [','] st.summary) = some "1.0000000000000002e+16,k\n".toList ∧
    (roundingLines.map (accepted 2 [','])) =
        [some (["k".toList], F64.ofNat (10 ^ 16)), some (["k".toList], F64.ofNat 1),
         some (["k".toList], F64.ofNat 1)] ∧
    F64.ofNat (10 ^ 16) ≠ F64.ofNat (10 ^ 16 + 2) ∧
    FormatFloat (F64.ofNat (10 ^ 16 + 2)) = "1.0000000000000002e+16".toList := by
  set_option maxRecDepth 100000 in decide!

/-- C2, at the failing input.  The lines `ab,1,c` and `a,2,bc` with column 2
have the different group columns `ab`, `c` and `a`, `bc`; both are accumulated
into the single record of key `hash "abc"`, and one line `3,ab,c` is printed. -/
theorem different_columns_same_record :
    collidingLines.map (accepted 2 [',']) =
      [some (["ab".toList, "c".toList], F64.ofNat 1),
       some (["a".toList, "bc".toList], F64.ofNat 2)] ∧
    readstdin 2 [','] collidingLines State.init =
      some { summary :=
               [(hash "abc".toList,
                 { Columns := ["ab".toList, "c".toList],
                   Values := [⟨stdinLabel, F64.ofNat 1⟩, ⟨stdinLabel, F64.ofNat 2⟩],
                   Hash := hash "abc".toList, Total := F64.ofNat 3 })],
             stdout := [] } ∧
    (readstdin 2 [','] collidingLines State.init).bind (fun st => write [','] st.summary) =
      some "3,ab,c\n".toList := by
  set_option maxRecDepth 100000 in decide!

/-- C5, at the failing input.  With column 1 the lines `5` and `6,a` give two
records, the first one without any column; `write` then panics in the sort and
prints no line at all. -/
theorem write_panics_on_record_without_columns :
    readstdin 1 [','] raggedLines State.init =
      some { summary :=
               [(hash [],
                 { Columns := [], Values := [⟨stdinLabel, F64.ofNat 5⟩],
                   Hash := hash [], Total := F64.ofNat 5 }),
                (hash "a".toList,
                 { Columns := ["a".toList], Values := [⟨stdinLabel, F64.ofNat 6⟩],
                   Hash := hash "a".toList, Total := F64.ofNat 6 })],
             stdout := [] } ∧
    (readstdin 1 [','] raggedLines State.init).bind (fun st => write [','] st.summary) = none ∧
    main 1 [','] [] raggedLines = none := by
  set_option maxRecDepth 100000 in decide!

/-- C7, at the failing input.  The line `a,x` with column 2: `x` is not a
number, the failure is reported, and the line is accumulated all the same, with
the value 0 that `ParseFloat` returns with its error. -/
theorem parse_failure_is_accumulated :
    ParseFloat "x".toList = (F64.zero, some NumError.invalid) ∧
    readLine 2 [','] stdinLabel 1 State.init "a,x".toList =
      some { summary :=
               [(hash "a".toList,
                 { Columns := ["a".toList], Values := [⟨stdinLabel, F64.zero⟩],
                   Hash := hash "a".toList, Total := F64.zero })],
             stdout := [Printed.diag "Failed to parse line".toList 1 stdinLabel
               (some NumError.invalid)] } := by
  set_option maxRecDepth 100000 in decide!

/-- C9, counterexample.  On the three lines of the example with column 2 the
output is not `20,a,10`, `20,b,10`, no record has the key of the columns `b`,
`10`, and the Total of the record of `a`, `10` is 3. -/
theorem example_totals_are_not_20 :
    (readstdin 2 [','] exampleLines State.init).bind (fun st => write [','] st.summary) ≠
      some "20,a,10\n20,b,10\n".toList ∧
    (readstdin 2 [','] exampleLines State.init).bind
      (fun st => mapGet st.summary (hash "b10".toList)) = none ∧
    ((readstdin 2 [','] exampleLines State.init).bind
      (fun st => mapGet st.summary (hash "a10".toList))).map Row.Total = some (F64.ofNat 3) ∧
    F64.ofNat 3 ≠ F64.ofNat 20 := by
  set_option maxRecDepth 100000 in decide!

/-- C9, as amended.  On the lines `a,1,10`, `b,1,20`, `a,2,10` with column 2
and separator `,`, lines 1 and 3 share the record of the columns `a`, `10`
with Total 3, line 2 is alone in the record of `b`, `20` with Total 1, and the
output is the two lines `3,a,10` and `1,b,20`, in whichever order the map is
visited. -/
theorem example_output :
    readstdin 2 [','] exampleLines State.init =
      some { summary := exampleSummary, stdout := [] } ∧
    write [','] exampleSummary = some "3,a,10\n1,b,20\n".toList ∧
    write [','] exampleSummary.reverse = some "3,a,10\n1,b,20\n".toList ∧
    main 2 [','] [] exampleLines = some [Printed.text "3,a,10\n1,b,20\n".toList] := by
  set_option maxRecDepth 100000 in decide!

/-! ## The claims on diagnostics, determinism, invariants and safety -/

/-- C11, counterexample.  With a missing file and a file whose first line has
one field only, standard output receives the notice of the skipped file and the
diagnostic of the line, and after them the summary line. -/
theorem diagnostics_printed_on_standard_output :
    main 2 [','] faultyFiles [] =
      some [Printed.text "nofile Could not be found... skipping\n".toList,
            Printed.diag "No enough columns to meet requested column number".toList 1
              "f".toList none,
            Printed.text "1,a\n".toList] := by
  set_option maxRecDepth 100000 in decide!

/-- C11, as amended.  In a run without an output file, standard output
receives what was printed while reading, followed by the summary lines; what
was printed while reading holds the notice of every file that is missing or
cannot be opened, and the diagnostic of every line that has one (a
column-count problem or a failure of `ParseFloat`), with its number and the
label of its source. -/
theorem diagnostics_share_standard_output (column : Int) (seperator : Str)
    (args : List (Str × FileStatus)) (stdin : List Str) (out : List Printed)
    (h : main column seperator args stdin = some out) :
    ∃ st t, readfile column seperator (sources args stdin) State.init = some st ∧
      write seperator st.summary = some t ∧
      out = st.stdout ++ [Printed.text t] ∧
      (∀ f, (f, FileStatus.missing) ∈ sources args stdin →
        Printed.text (f ++ " Could not be found... skipping\n".toList) ∈ out) ∧
      (∀ f, (f, FileStatus.unreadable) ∈ sources args stdin →
        Printed.text ("Could not open file ".toList ++ f ++ " ... skipping\n".toList) ∈ out) ∧
      (∀ f r i l, (f, FileStatus.lines r) ∈ sources args stdin → r.get? i = some l →
        (((Split (TrimSpace l) seperator).length : Int) < column →
          ∃ m, Printed.diag m (i + 1) f none ∈ out) ∧
        (∀ field e, index (Split (TrimSpace l) seperator) (column - 1) = some field →
          (ParseFloat field).2 = some e →
          Printed.diag "Failed to parse line".toList (i + 1) f (some e) ∈ out)) := by
  rw [main_eq] at h
  cases hst : readfile column seperator (sources args stdin) State.init with
  | none => simp [hst] at h
  | some st =>
    simp only [hst, Option.some_bind] at h
    cases ht : write seperator st.summary with
    | none => simp [ht] at h
    | some t =>
      simp only [ht, Option.map_some', Option.some.injEq] at h
      obtain ⟨i1, i2, i3⟩ := readfile_mem column seperator _ State.init st hst
      refine ⟨st, t, rfl, ht, h.symm, ?_, ?_, ?_⟩
      · intro f hf
        rw [← h]
        exact List.mem_append_left _ (i1 f hf)
      · intro f hf
        rw [← h]
        exact List.mem_append_left _ (i2 f hf)
      · intro f r i l hf hi
        constructor
        · intro hlt
          by_cases h0 : (Split (TrimSpace l) seperator).length = 0
          · refine ⟨"No columns parsed from line".toList, ?_⟩
            rw [← h]
            exact List.mem_append_left _ (i3 f r i l _ hf hi (by simp [lineDiag, h0]))
          · refine ⟨"No enough columns to meet requested column number".toList, ?_⟩
            have h1 : column > ((Split (TrimSpace l) seperator).length : Int) := hlt
            rw [← h]
            exact List.mem_append_left _ (i3 f r i l _ hf hi (by
              simp only [lineDiag, h0, h1, if_true, if_false, List.mem_singleton]))
        · intro field e hfield he
          have hge : ¬ (column - 1 < 0) := by
            intro hneg
            simp [index, hneg] at hfield
          have hlen : (column - 1).toNat < (Split (TrimSpace l) seperator).length := by
            simp only [index, hge, if_false] at hfield
            by_contra hcon
            rw [List.get?_eq_getElem?, List.getElem?_eq_none (by omega)] at hfield
            cases hfield
          have h0 : ¬ (Split (TrimSpace l) seperator).length = 0 := by omega
          have h1 : ¬ column > ((Split (TrimSpace l) seperator).length : Int) := by omega
          rw [← h]
          exact List.mem_append_left _ (i3 f r i l _ hf hi (by
            simp only [lineDiag, h0, h1, if_false, hfield, he, Option.isSome_some, if_true,
              List.mem_singleton]))

/-- C12, counterexample.  The lines `a,1,x` and `a,2,y` with column 2 give two
records with the same first column `a`; the two orders in which the map can be
visited give the two lines of output in different orders. -/
theorem tie_order_follows_map_order :
    readstdin 2 [','] tieLines State.init = some { summary := tieSummary, stdout := [] } ∧
    write [','] tieSummary = some "1,a,x\n2,a,y\n".toList ∧
    write [','] tieSummary.reverse = some "2,a,y\n1,a,x\n".toList ∧
    tieSummary.reverse.Perm tieSummary :=
  ⟨by set_option maxRecDepth 100000 in decide!,
   by set_option maxRecDepth 100000 in decide!,
   by set_option maxRecDepth 100000 in decide!,
   List.reverse_perm _⟩

/-- C12, as amended.  When every record has a grouping column and no two
records have the same first grouping column, `write` returns and the lines it
writes are the same for every order in which the map is visited. -/
theorem write_deterministic_without_ties (seperator : Str) (summary summary2 : SummaryMap)
    (hp : summary2.Perm summary)
    (hcol : ∀ p ∈ summary, p.2.Columns ≠ [])
    (hdist : ∀ p ∈ summary, ∀ q ∈ summary, p.2.Columns.head? = q.2.Columns.head? → p.2 = q.2) :
    (∃ out, writeLines seperator summary = some out) ∧
    writeLines seperator summary2 = writeLines seperator summary ∧
    write seperator summary2 = write seperator summary := by
  have hc1 : ∀ r ∈ summary.map Prod.snd, r.Columns ≠ [] := by
    intro r hr
    obtain ⟨p, hp1, e⟩ := List.mem_map.1 hr
    subst e
    exact hcol p hp1
  have hperm : (summary2.map Prod.snd).Perm (summary.map Prod.snd) := hp.map _
  have hc2 : ∀ r ∈ summary2.map Prod.snd, r.Columns ≠ [] :=
    fun r hr => hc1 r (hperm.mem_iff.1 hr)
  obtain ⟨t1, ht1⟩ := sortSummary_isSome _ hc1
  obtain ⟨t2, ht2⟩ := sortSummary_isSome _ hc2
  have hd : ∀ a ∈ summary.map Prod.snd, ∀ b ∈ summary.map Prod.snd,
      a.Columns.head? = b.Columns.head? → a = b := by
    intro a ha b hb hab
    obtain ⟨p, hp1, e1⟩ := List.mem_map.1 ha
    obtain ⟨q, hq1, e2⟩ := List.mem_map.1 hb
    subst e1
    subst e2
    exact hdist p hp1 q hq1 hab
  have heq := sortSummary_perm_eq _ _ t1 t2 hperm hd ht1 ht2
  have hw : writeLines seperator summary2 = writeLines seperator summary := by
    simp only [writeLines, ht1, ht2, heq]
  exact ⟨⟨t1.map (writeRow seperator), by simp [writeLines, ht1]⟩, hw, by simp only [write, hw]⟩

/-- C13. Accumulating a line changes only the record of the key of its
columns: that record is the former one, or a new one with the given columns,
Total 0 and no contribution, on which `Add` appends the contribution and adds
the value to the Total; the records of the other keys are unchanged and no key
loses its record.  This is what the loop body does with a line that passes the
checks on the number of fields. -/
theorem accumulate_changes_one_record (m : SummaryMap) (columns : List Str) (v : F64)
    (f : Str) :
    mapGet (accumulate m columns v f) (hash (Join columns [])) =
      some (((mapGet m (hash (Join columns []))).getD
        { Columns := columns, Values := [], Hash := hash (Join columns []),
          Total := F64.zero }).Add v f) ∧
    (∀ r : Row, (r.Add v f).Values = r.Values ++ [⟨f, v⟩] ∧ (r.Add v f).Total = r.Total + v ∧
      (r.Add v f).Columns = r.Columns ∧ (r.Add v f).Hash = r.Hash) ∧
    (∀ k2, k2 ≠ hash (Join columns []) → mapGet (accumulate m columns v f) k2 = mapGet m k2) ∧
    (∀ k2 r, mapGet m k2 = some r → ∃ r2, mapGet (accumulate m columns v f) k2 = some r2) ∧
    (∀ column seperator ln st l, st.summary = m →
      accepted column seperator l = some (columns, v) →
      ∃ st2, readLine column seperator f ln st l = some st2 ∧
        st2.summary = accumulate m columns v f) := by
  have hg := mapGet_accumulate m columns v f
  refine ⟨?_, ?_, ?_, ?_, ?_⟩
  · rw [hg (hash (Join columns []))]
    simp [NewRow]
  · intro r
    exact ⟨rfl, rfl, rfl, rfl⟩
  · intro k2 hk
    rw [hg k2]
    simp [Ne.symm hk]
  · intro k2 r hr
    rw [hg k2]
    by_cases hk : hash (Join columns []) = k2
    · simp [hk]
    · simp [hk, hr]
  · intro column seperator ln st l hm ha
    have hc : 1 ≤ column := by
      by_contra hcon
      have hneg : column - 1 < 0 := by omega
      unfold accepted at ha
      simp only [index, hneg, if_true, Option.map_none'] at ha
      split_ifs at ha
    obtain ⟨st2, h1, h2⟩ := readLine_summary column seperator f ln st l hc
    refine ⟨st2, h1, ?_⟩
    rw [h2, hm]
    simp [step, ha]

/-- C14, at the failing input.  With column 1 and separator `,` the lines `5`
and `6,a` give a reachable map in which every record has a contribution, so the
guard of `write` would hold for each of them, and the record of `6,a` has the
grouping column `a`.  But `write` panics in the sort before it prints anything,
in either order of the map: the run prints no line, and no column of any
record. -/
theorem reachable_record_columns_not_printed :
    readstdin 1 [','] raggedLines State.init =
      some { summary := raggedSummary, stdout := [] } ∧
    Reachable raggedSummary ∧
    (∀ p ∈ raggedSummary, p.2.Values.length > 0) ∧
    raggedSummary.map (fun p => (p.2.Columns, p.2.Values.length)) =
      [([], 1), (["a".toList], 1)] ∧
    writeLines [','] raggedSummary = none ∧
    writeLines [','] raggedSummary.reverse = none ∧
    main 1 [','] [] raggedLines = none :=
  ⟨by set_option maxRecDepth 100000 in decide!,
   reachable_raggedSummary,
   by decide,
   by decide,
   by set_option maxRecDepth 100000 in decide!,
   by set_option maxRecDepth 100000 in decide!,
   by set_option maxRecDepth 100000 in decide!⟩

/-- C15. In every reachable map the Total of every record is the float64 sum
of the values of its contributions, added in insertion order from 0, and the
record is stored under the key equal to its `Hash`, which is the hash of the
concatenation of its columns. -/
theorem reachable_records_total_and_key (m : SummaryMap) (h : Reachable m) :
    ∀ p ∈ m, p.2.Total = p.2.Values.foldl (fun a c => a + c.Value) F64.zero ∧
      p.1 = p.2.Hash ∧ p.2.Hash = hash (Join p.2.Columns []) ∧
      mapGet m p.2.Hash = some p.2 := by
  intro p hp
  obtain ⟨hnd, hall⟩ := reachable_records m h
  obtain ⟨-, h2, h3, h4⟩ := hall p hp
  refine ⟨h2, h3.symm, by rw [h3]; exact h4, ?_⟩
  rw [h3]
  exact mapGet_of_mem m p.1 p.2 hnd hp

/-- C16, at the failing input.  With column 1 and separator `,` the lines `5`
and `6,a` give a reachable map with a record without any column; `Less` on the
two records panics, and so do the sort and `write`. -/
theorem less_panics_on_reachable_record :
    readfile 1 [','] [(stdinLabel, FileStatus.lines raggedLines)] State.init =
      some { summary := raggedSummary, stdout := [] } ∧
    (raggedSummary.map (fun p => p.2.Columns)) = [[], ["a".toList]] ∧
    (raggedSummary.map Prod.snd).Pairwise (fun a b => Less b a = none) ∧
    sortSummary (raggedSummary.map Prod.snd) = none ∧
    write [','] raggedSummary = none := by
  set_option maxRecDepth 100000 in decide!

/-- C17, at the failing input.  With the column option 0 the line `a,1` has
two fields, the check `column > len(c)` passes, and the access `c[column - 1]`
is `c[-1]`: the loop body panics, and so does the run.  The same holds for a
negative column. -/
theorem column_zero_indexes_out_of_range :
    Split (TrimSpace "a,1".toList) [','] = ["a".toList, "1".toList] ∧
    index (Split (TrimSpace "a,1".toList) [',']) (0 - 1) = none ∧
    readLine 0 [','] stdinLabel 1 State.init "a,1".toList = none ∧
    readLine (-3) [','] stdinLabel 1 State.init "a,1".toList = none ∧
    main 0 [','] [] ["a,1".toList] = none := by
  set_option maxRecDepth 100000 in decide!

/-- C18. With a non-empty separator the trimmed line always splits into at
least one field, and the loop body never prints `No columns parsed from line`.
An empty or all-white-space line gives the single empty field: with a column
index above 1 it is reported as having too few columns, and with the column
index 1 the empty field goes to `ParseFloat`, which fails. -/
theorem split_yields_a_field (seperator : Str) (l : Str) (hsep : seperator ≠ []) :
    (Split (TrimSpace l) seperator).length ≠ 0 ∧
    (∀ column f ln st st2, readLine column seperator f ln st l = some st2 →
      ∃ d, st2.stdout = st.stdout ++ d ∧
        ∀ n g e, Printed.diag "No columns parsed from line".toList n g e ∉ d) ∧
    ((∀ c ∈ l, isSpace c = true) →
      Split (TrimSpace l) seperator = [[]] ∧
      (∀ column f ln st, 1 < column →
        readLine column seperator f ln st l =
          some { summary := st.summary,
                 stdout := st.stdout ++
                   [Printed.diag "No enough columns to meet requested column number".toList
                     ln f none] }) ∧
      (∀ f ln st, ∃ st2, readLine 1 seperator f ln st l = some st2 ∧
        st2.stdout = st.stdout ++
          [Printed.diag "Failed to parse line".toList ln f (some NumError.invalid)] ∧
        st2.summary = accumulate st.summary [] F64.zero f)) := by
  have hlen := Split_length_pos (TrimSpace l) seperator hsep
  refine ⟨hlen, ?_, ?_⟩
  · intro column f ln st st2 h
    refine ⟨lineDiag column seperator f ln l, readLine_stdout column seperator f ln st st2 l h, ?_⟩
    intro n g e hmem
    unfold lineDiag at hmem
    simp only [hlen, if_false] at hmem
    by_cases h1 : column > ((Split (TrimSpace l) seperator).length : Int)
    · simp only [h1, if_true, List.mem_singleton, Printed.diag.injEq] at hmem
      exact absurd hmem.1 (by decide)
    · simp only [h1, if_false] at hmem
      cases hf : index (Split (TrimSpace l) seperator) (column - 1) with
      | none => simp [hf] at hmem
      | some field =>
        simp only [hf] at hmem
        by_cases he : (ParseFloat field).2.isSome
        · simp only [he, if_true, List.mem_singleton, Printed.diag.injEq] at hmem
          exact absurd hmem.1 (by decide)
        · simp [he] at hmem
  · intro hsp
    have hfields : Split (TrimSpace l) seperator = [[]] := by
      rw [TrimSpace_of_space l hsp]
      simp [Split, hsep, splitLoop]
    refine ⟨hfields, ?_, ?_⟩
    · intro column f ln st hc
      have h1 : column > (([[]] : List Str).length : Int) := by simpa using hc
      unfold readLine
      simp only [hfields, List.length_singleton, one_ne_zero, if_false]
      simp only [List.length_singleton] at h1
      simp only [h1, if_true, readerr]
    · intro f ln st
      obtain ⟨st2, h1, h2⟩ := readLine_summary 1 seperator f ln st l (by decide)
      have h3 := readLine_stdout 1 seperator f ln st st2 l h1
      have hp : ParseFloat [] = (F64.zero, some NumError.invalid) := by decide
      refine ⟨st2, h1, ?_, ?_⟩
      · rw [h3]
        simp [lineDiag, hfields, index, hp]
      · rw [h2]
        simp [step, accepted, hfields, index, hp, dropColumn]

/-! ## The hypotheses of the claims hold on the example -/

/-- C1: the hypotheses of the amended claim hold for the group `a`, `10` of the example read from two files. -/
theorem total_is_float_sum_in_input_order_witness :
    (1 : Int) ≤ 2 ∧
    (∀ l ∈ (labelledLines exampleFiles).map Prod.snd, ∀ c v,
      accepted 2 [','] l = some (c, v) →
      hash (Join c []) = hash (Join ["a".toList, "10".toList] []) →
      c = ["a".toList, "10".toList]) ∧
    (∃ l ∈ (labelledLines exampleFiles).map Prod.snd, ∃ v,
      accepted 2 [','] l = some (["a".toList, "10".toList], v)) ∧
    (∃ st r, readfile 2 [','] exampleFiles State.init = some st ∧
      mapGet st.summary (hash (Join ["a".toList, "10".toList] [])) = some r ∧
      r.Columns = ["a".toList, "10".toList] ∧
      r.Total = (groupValues 2 [','] ["a".toList, "10".toList]
        ((labelledLines exampleFiles).map Prod.snd)).foldl (· + ·) F64.zero ∧
      (∀ out, writeLines [','] st.summary = some out →
        FormatFloat r.Total ++ ["a".toList, "10".toList].flatMap (fun v => [','] ++ v) ++ ['\n']
          ∈ out) ∧
      (∀ files2, (labelledLines files2).map Prod.snd = (labelledLines exampleFiles).map Prod.snd →
        ∃ st2 r2, readfile 2 [','] files2 State.init = some st2 ∧
          mapGet st2.summary (hash (Join ["a".toList, "10".toList] [])) = some r2 ∧
          r2.Total = r.Total)) := by
  have hcoll : ∀ l ∈ (labelledLines exampleFiles).map Prod.snd, ∀ c v,
      accepted 2 [','] l = some (c, v) →
      hash (Join c []) = hash (Join ["a".toList, "10".toList] []) →
      c = ["a".toList, "10".toList] := by
    intro l hl c v ha hk
    have e : (labelledLines exampleFiles).map Prod.snd = exampleLines := by decide
    rw [e] at hl
    simp only [exampleLines, List.mem_cons, List.mem_singleton, List.not_mem_nil, or_false] at hl
    rcases hl with rfl | rfl | rfl
    · have ea : accepted 2 [','] "a,1,10".toList =
          some (["a".toList, "10".toList], F64.ofNat 1) := by decide
      rw [ea] at ha
      cases ha
      rfl
    · have ea : accepted 2 [','] "b,1,20".toList =
          some (["b".toList, "20".toList], F64.ofNat 1) := by decide
      rw [ea] at ha
      cases ha
      have hne : hash (Join ["b".toList, "20".toList] []) ≠
          hash (Join ["a".toList, "10".toList] []) := by
        set_option maxRecDepth 100000 in decide!
      exact absurd hk hne
    · have ea : accepted 2 [','] "a,2,10".toList =
          some (["a".toList, "10".toList], F64.ofNat 2) := by decide
      rw [ea] at ha
      cases ha
      rfl
  have hex : ∃ l ∈ (labelledLines exampleFiles).map Prod.snd, ∃ v,
      accepted 2 [','] l = some (["a".toList, "10".toList], v) :=
    ⟨"a,1,10".toList, by decide, F64.ofNat 1, by decide⟩
  exact ⟨by decide, hcoll, hex,
    total_is_float_sum_in_input_order 2 [','] exampleFiles ["a".toList, "10".toList]
      (by decide) hcoll hex⟩

/-- C3: the hypotheses hold for lines 1 and 3 of the example read from two files. -/
theorem same_columns_share_one_record_witness :
    (1 : Int) ≤ 2 ∧
    labelledLines exampleFiles =
      [] ++ [("f1".toList, "a,1,10".toList)] ++ [("f2".toList, "b,1,20".toList)] ++
        [("f2".toList, "a,2,10".toList)] ++ [] ∧
    accepted 2 [','] "a,1,10".toList = some (["a".toList, "10".toList], F64.ofNat 1) ∧
    accepted 2 [','] "a,2,10".toList = some (["a".toList, "10".toList], F64.ofNat 2) ∧
    (∃ st r, readfile 2 [','] exampleFiles State.init = some st ∧
      (st.summary.map Prod.fst).Nodup ∧
      mapGet st.summary (hash (Join ["a".toList, "10".toList] [])) = some r ∧
      r.Values =
        contributions 2 [','] (hash (Join ["a".toList, "10".toList] [])) [] ++
          [NewFile "f1".toList (F64.ofNat 1)] ++
        contributions 2 [','] (hash (Join ["a".toList, "10".toList] []))
          [("f2".toList, "b,1,20".toList)] ++ [NewFile "f2".toList (F64.ofNat 2)] ++
        contributions 2 [','] (hash (Join ["a".toList, "10".toList] [])) [] ∧
      r.Total = sumFrom F64.zero r.Values) :=
  ⟨by decide, by decide, by decide, by decide,
    same_columns_share_one_record 2 [','] exampleFiles [] [("f2".toList, "b,1,20".toList)] []
      "f1".toList "a,1,10".toList "f2".toList "a,2,10".toList ["a".toList, "10".toList]
      (F64.ofNat 1) (F64.ofNat 2) (by decide) (by decide) (by decide) (by decide)⟩

/-- C4: the map of the example visited in reverse order is printed in ascending order. -/
theorem write_lines_sorted_witness :
    (∀ p ∈ exampleSummary.reverse, p.2.Columns ≠ []) ∧
    writeLines [','] exampleSummary.reverse = some ["3,a,10\n".toList, "1,b,20\n".toList] ∧
    (∃ out, writeLines [','] exampleSummary.reverse = some out) ∧
    (∃ s : List Row, s.Perm (exampleSummary.reverse.map Prod.snd) ∧
      ["3,a,10\n".toList, "1,b,20\n".toList] = s.map (writeRow [',']) ∧ s.Pairwise firstLE) :=
  ⟨by decide, by set_option maxRecDepth 100000 in decide!,
    (write_lines_sorted [','] exampleSummary.reverse).1 (by decide),
    (write_lines_sorted [','] exampleSummary.reverse).2 _
      (by set_option maxRecDepth 100000 in decide!)⟩

/-- C6: the line `b` has one field, fewer than the column index 2. -/
theorem short_line_skipped_witness :
    ((Split (TrimSpace "b".toList) [',']).length : Int) < 2 ∧
    readLine 2 [','] stdinLabel 1 State.init "b".toList =
      some { summary := State.init.summary,
             stdout := State.init.stdout ++
               [Printed.diag
                 (if (Split (TrimSpace "b".toList) [',']).length = 0
                  then "No columns parsed from line".toList
                  else "No enough columns to meet requested column number".toList)
                 1 stdinLabel none] } :=
  ⟨by decide, short_line_skipped 2 [','] stdinLabel 1 State.init "b".toList (by decide)⟩

/-- C8: the line `a,1,10` with column 2 gives the columns `a`, `10`. -/
theorem columns_are_fields_without_target_witness :
    (1 : Int) ≤ 2 ∧
    (2 : Int) ≤ ((Split (TrimSpace "a,1,10".toList) [',']).length : Int) ∧
    dropColumn 2 0 (Split (TrimSpace "a,1,10".toList) [',']) = ["a".toList, "10".toList] ∧
    (dropColumn 2 0 (Split (TrimSpace "a,1,10".toList) [','])).length + 1 =
      (Split (TrimSpace "a,1,10".toList) [',']).length ∧
    (∀ i : Nat, (dropColumn 2 0 (Split (TrimSpace "a,1,10".toList) [','])).get? i =
      if (i : Int) < 2 - 1 then (Split (TrimSpace "a,1,10".toList) [',']).get? i
      else (Split (TrimSpace "a,1,10".toList) [',']).get? (i + 1)) :=
  ⟨by decide, by decide, by decide,
    (columns_are_fields_without_target 2 [','] stdinLabel 1 State.init "a,1,10".toList
      (by decide) (by decide)).1,
    (columns_are_fields_without_target 2 [','] stdinLabel 1 State.init "a,1,10".toList
      (by decide) (by decide)).2.1⟩

/-- C10: the fields `x`, `5`, `y` contain neither separator. -/
theorem separator_independent_witness :
    (∀ x ∈ ["x".toList, "5".toList, "y".toList], ',' ∉ x ∧ '|' ∉ x) ∧
    Join ["x".toList, "5".toList, "y".toList] ['|'] = "x|5|y".toList ∧
    Join ["x".toList, "5".toList, "y".toList] [','] = "x,5,y".toList ∧
    ["x".toList, "5".toList, "y".toList] ≠ [] ∧
    TrimSpace (Join ["x".toList, "5".toList, "y".toList] ['|']) =
      Join ["x".toList, "5".toList, "y".toList] ['|'] ∧
    index (Split (TrimSpace (Join ["x".toList, "5".toList, "y".toList] [','])) [','])
      (2 - 1) = some "5".toList ∧
    ParseFloat "5".toList = (F64.ofNat 5, none) ∧
    readLine 2 ['|'] stdinLabel 1 State.init (Join ["x".toList, "5".toList, "y".toList] ['|']) =
      readLine 2 [','] stdinLabel 1 State.init
        (Join ["x".toList, "5".toList, "y".toList] [',']) ∧
    Split (TrimSpace (Join ["x".toList, "5".toList, "y".toList] ['|'])) ['|'] =
      ["x".toList, "5".toList, "y".toList] ∧
    readLine 2 ['|'] stdinLabel 1 State.init (Join ["x".toList, "5".toList, "y".toList] ['|']) =
      some { summary := accumulate State.init.summary
               (dropColumn 2 0
                 (Split (TrimSpace (Join ["x".toList, "5".toList, "y".toList] [','])) [',']))
               (ParseFloat "5".toList).1 stdinLabel,
             stdout := State.init.stdout ++
               if (ParseFloat "5".toList).2.isSome
               then [Printed.diag "Failed to parse line".toList 1 stdinLabel
                 (ParseFloat "5".toList).2]
               else [] } :=
  ⟨by decide, by decide, by decide, by decide, by decide, by decide, by decide,
    (separator_independent ["x".toList, "5".toList, "y".toList] 2 stdinLabel 1 State.init
      (by decide)).1,
    (separator_independent ["x".toList, "5".toList, "y".toList] 2 stdinLabel 1 State.init
      (by decide)).2.2.2.2.1 (by decide) (by decide),
    (separator_independent ["x".toList, "5".toList, "y".toList] 2 stdinLabel 1 State.init
      (by decide)).2.2.2.2.2.1 "5".toList (by decide)⟩

/-- C11: the run on `faultyFiles` returns, and its standard output holds the
notice, the diagnostic and the summary line. -/
theorem diagnostics_share_standard_output_witness :
    main 2 [','] faultyFiles [] = some faultyOutput ∧
    (∃ st t, readfile 2 [','] (sources faultyFiles []) State.init = some st ∧
      write [','] st.summary = some t ∧
      faultyOutput = st.stdout ++ [Printed.text t] ∧
      (∀ f, (f, FileStatus.missing) ∈ sources faultyFiles [] →
        Printed.text (f ++ " Could not be found... skipping\n".toList) ∈ faultyOutput) ∧
      (∀ f, (f, FileStatus.unreadable) ∈ sources faultyFiles [] →
        Printed.text ("Could not open file ".toList ++ f ++ " ... skipping\n".toList)
          ∈ faultyOutput) ∧
      (∀ f r i l, (f, FileStatus.lines r) ∈ sources faultyFiles [] → r.get? i = some l →
        (((Split (TrimSpace l) [',']).length : Int) < 2 →
          ∃ m, Printed.diag m (i + 1) f none ∈ faultyOutput) ∧
        (∀ field e, index (Split (TrimSpace l) [',']) (2 - 1) = some field →
          (ParseFloat field).2 = some e →
          Printed.diag "Failed to parse line".toList (i + 1) f (some e) ∈ faultyOutput))) :=
  ⟨by set_option maxRecDepth 100000 in decide!,
   diagnostics_share_standard_output 2 [','] faultyFiles [] faultyOutput
     (by set_option maxRecDepth 100000 in decide!)⟩

/-- C12: the records of the example have the distinct first columns `a` and
`b`, and the reversed map is another order of the same map. -/
theorem write_deterministic_without_ties_witness :
    exampleSummary.reverse.Perm exampleSummary ∧
    (∀ p ∈ exampleSummary, p.2.Columns ≠ []) ∧
    (∀ p ∈ exampleSummary, ∀ q ∈ exampleSummary,
      p.2.Columns.head? = q.2.Columns.head? → p.2 = q.2) ∧
    ((∃ out, writeLines [','] exampleSummary = some out) ∧
      writeLines [','] exampleSummary.reverse = writeLines [','] exampleSummary ∧
      write [','] exampleSummary.reverse = write [','] exampleSummary) :=
  ⟨List.reverse_perm _, by decide, by set_option maxRecDepth 100000 in decide!,
   write_deterministic_without_ties [','] exampleSummary exampleSummary.reverse
     (List.reverse_perm _) (by decide) (by set_option maxRecDepth 100000 in decide!)⟩

/-- C13: the line `b,7,20` accumulated into the map of the example changes the
record of `b`, `20` and leaves the record of `a`, `10` as it is. -/
theorem accumulate_changes_one_record_witness :
    hash "a10".toList ≠ hash (Join ["b".toList, "20".toList] []) ∧
    mapGet exampleSummary (hash "a10".toList) =
      some { Columns := ["a".toList, "10".toList],
             Values := [⟨stdinLabel, F64.ofNat 1⟩, ⟨stdinLabel, F64.ofNat 2⟩],
             Hash := hash "a10".toList, Total := F64.ofNat 3 } ∧
    exampleState.summary = exampleSummary ∧
    accepted 2 [','] "b,7,20".toList = some (["b".toList, "20".toList], F64.ofNat 7) ∧
    mapGet (accumulate exampleSummary ["b".toList, "20".toList] (F64.ofNat 7) stdinLabel)
      (hash "a10".toList) = mapGet exampleSummary (hash "a10".toList) ∧
    (∃ r2, mapGet (accumulate exampleSummary ["b".toList, "20".toList] (F64.ofNat 7) stdinLabel)
      (hash "a10".toList) = some r2) ∧
    (∃ st2, readLine 2 [','] stdinLabel 4 exampleState "b,7,20".toList = some st2 ∧
      st2.summary = accumulate exampleSummary ["b".toList, "20".toList] (F64.ofNat 7)
        stdinLabel) :=
  ⟨by set_option maxRecDepth 100000 in decide!,
   by set_option maxRecDepth 100000 in decide!,
   rfl,
   by decide,
   (accumulate_changes_one_record exampleSummary ["b".toList, "20".toList] (F64.ofNat 7)
     stdinLabel).2.2.1 _ (by set_option maxRecDepth 100000 in decide!),
   (accumulate_changes_one_record exampleSummary ["b".toList, "20".toList] (F64.ofNat 7)
     stdinLabel).2.2.2.1 (hash "a10".toList)
       { Columns := ["a".toList, "10".toList],
         Values := [⟨stdinLabel, F64.ofNat 1⟩, ⟨stdinLabel, F64.ofNat 2⟩],
         Hash := hash "a10".toList, Total := F64.ofNat 3 }
       (by set_option maxRecDepth 100000 in decide!),
   (accumulate_changes_one_record exampleSummary ["b".toList, "20".toList] (F64.ofNat 7)
     stdinLabel).2.2.2.2 2 [','] 4 exampleState "b,7,20".toList rfl (by decide)⟩

/-- C15: the map of the example is reachable. -/
theorem reachable_records_total_and_key_witness :
    Reachable exampleSummary ∧
    ∀ p ∈ exampleSummary, p.2.Total = p.2.Values.foldl (fun a c => a + c.Value) F64.zero ∧
      p.1 = p.2.Hash ∧ p.2.Hash = hash (Join p.2.Columns []) ∧
      mapGet exampleSummary p.2.Hash = some p.2 :=
  ⟨reachable_exampleSummary,
   reachable_records_total_and_key exampleSummary reachable_exampleSummary⟩

/-- C18: a line of two spaces, with the separator `,`. -/
theorem split_yields_a_field_witness :
    ([','] : Str) ≠ [] ∧
    (∀ c ∈ "  ".toList, isSpace c = true) ∧
    (1 : Int) < 2 ∧
    (Split (TrimSpace "  ".toList) [',']).length ≠ 0 ∧
    Split (TrimSpace "  ".toList) [','] = [[]] ∧
    readLine 2 [','] stdinLabel 1 State.init "  ".toList =
      some { summary := State.init.summary,
             stdout := State.init.stdout ++
               [Printed.diag "No enough columns to meet requested column number".toList
                 1 stdinLabel none] } ∧
    (∃ d, ({ summary := [], stdout := [Printed.diag
          "No enough columns to meet requested column number".toList 1 stdinLabel none] }
          : State).stdout = State.init.stdout ++ d ∧
      ∀ n g e, Printed.diag "No columns parsed from line".toList n g e ∉ d) :=
  ⟨by decide, by decide, by decide,
   (split_yields_a_field [','] "  ".toList (by decide)).1,
   ((split_yields_a_field [','] "  ".toList (by decide)).2.2 (by decide)).1,
   ((split_yields_a_field [','] "  ".toList (by decide)).2.2 (by decide)).2.1 2 stdinLabel 1
     State.init (by decide),
   (split_yields_a_field [','] "  ".toList (by decide)).2.1 2 stdinLabel 1 State.init _
     (by decide)⟩

end Gosum
